import Mathlib

/-!
Version generator (`gen/gen.go`): embedding and properties.

The generator is a straight-line pipeline: read `GOPACKAGE`, run `git describe`
(`makeVersion`), compute the paths (`verifyPath`), render and format the
template (`generate`), store the file (`write`).

Everything the program asks of its surroundings (environment variables, the
external command, the hostname, the Go runtime, the source formatter and the
file system calls) is a field of `World`.  The package-level variables of the
program are the record `Globals`; the observable effects are collected in
`Sys` (file contents and an event trace).

Go strings are modelled by Lean strings, that is by sequences of Unicode
characters (byte strings that are not valid UTF-8 are outside the model).
Go `error` values are modelled by their message.

Standard-library routines used by the program (`strings.TrimSpace`,
`path.Clean`, `path.Join`, `path.Dir`, the subset of `text/template` that the
template uses) are transcribed below from the Go sources.  The formatter
`format.Source` is a field of `World`; what a text means as Go source is said
with a model of the Go scanner.
-/

namespace VersionGen

/-! ## Library: `strings.TrimSpace` -/

/-- Go `unicode.IsSpace`: the Latin-1 spaces, and the `White_Space` table above Latin-1. -/
def isSpace (c : Char) : Bool :=
  let r := c.toNat
  if r ≤ 0xFF then
    r = 0x09 || r = 0x0A || r = 0x0B || r = 0x0C || r = 0x0D || r = 0x20 || r = 0x85 || r = 0xA0
  else
    r = 0x1680 || (0x2000 ≤ r && r ≤ 0x200A) || r = 0x2028 || r = 0x2029 || r = 0x202F
      || r = 0x205F || r = 0x3000

/-- Go `strings.TrimSpace`: all leading and trailing white space removed. -/
def trimSpace (s : String) : String :=
  ⟨((s.data.dropWhile isSpace).reverse.dropWhile isSpace).reverse⟩

/-! ## Library: package `path` -/

/-- True when the reading position is at the end of the path or at a slash:
the test `r+k == n || path[r+k] == '/'` of `path.Clean`. -/
def atElemEnd (l : List Char) : Bool :=
  match l with
  | [] => true
  | c :: _ => c = '/'

/-- The backtracking loop of `path.Clean`,
`for out.w > dotdot && out.index(out.w) != '/' { out.w-- }`, started at write index `w`:
returns the final write index. -/
def backtrack (buf : List Char) (dotdot : Nat) : Nat → Nat
  | 0 => 0
  | w + 1 =>
    if dotdot < w + 1 ∧ buf.getD (w + 1) '/' ≠ '/' then backtrack buf dotdot w else w + 1

/-- The `..` case of `path.Clean` on the state `(out[0..w), dotdot)`. -/
def dotdotStep (rooted : Bool) (st : List Char × Nat) : List Char × Nat :=
  if st.2 < st.1.length then
    -- can backtrack: `out.w--` and then back to the previous slash
    (st.1.take (backtrack st.1 st.2 (st.1.length - 1)), st.2)
  else if !rooted then
    -- cannot backtrack, but not rooted, so append `..`
    let b := (if 0 < st.1.length then st.1 ++ ['/'] else st.1) ++ ['.', '.']
    (b, b.length)
  else st

/-- The start of a real path element in `path.Clean`: add a slash if needed. -/
def startElem (rooted : Bool) (buf : List Char) : List Char :=
  if (rooted && buf.length != 1) || (!rooted && buf.length != 0) then buf ++ ['/'] else buf

/-- The main loop of `path.Clean` over the unread rest of the path, on the state
`(out[0..w), dotdot)`.  The flag is true while the inner loop that copies a real path
element is running (it stops at a slash, which the outer loop then skips). -/
def cleanLoop (rooted : Bool) : Bool → List Char → List Char × Nat → List Char × Nat
  | _, [], st => st
  | true, c :: rest, st =>
    if c = '/' then cleanLoop rooted false rest st
    else cleanLoop rooted true rest (st.1 ++ [c], st.2)
  | false, [c], st =>
    if c = '/' then st                -- empty path element
    else if c = '.' then st           -- `.` element at the end
    else (startElem rooted st.1 ++ [c], st.2)
  | false, c :: d :: rest, st =>
    if c = '/' then cleanLoop rooted false (d :: rest) st
    else if c = '.' ∧ d = '/' then cleanLoop rooted false (d :: rest) st
    else if c = '.' ∧ d = '.' ∧ atElemEnd rest then
      cleanLoop rooted false rest (dotdotStep rooted st)
    else cleanLoop rooted true (d :: rest) (startElem rooted st.1 ++ [c], st.2)

/-- Go `path.Clean` on the characters of a path. -/
def cleanChars (path : List Char) : List Char :=
  match path with
  | [] => ['.']
  | c :: rest =>
    let out :=
      if c = '/' then (cleanLoop true false rest (['/'], 1)).1
      else (cleanLoop false false (c :: rest) ([], 0)).1
    if out.length = 0 then ['.'] else out

/-- Go `path.Clean`. -/
def pathClean (p : String) : String := ⟨cleanChars p.data⟩

/-- The directory part of Go `path.Split`: everything up to and including the last slash. -/
def splitDir (p : List Char) : List Char :=
  (p.reverse.dropWhile (fun c => c != '/')).reverse

/-- Go `path.Dir`. -/
def pathDir (p : String) : String := ⟨cleanChars (splitDir p.data)⟩

/-- The elements of a path joined by single slashes. -/
def joinSlash : List String → String
  | [] => ""
  | [e] => e
  | e :: rest => e ++ "/" ++ joinSlash rest

/-- Go `path.Join`: leading empty elements are ignored, the rest is joined with slashes and
cleaned; the result is empty when every element is empty. -/
def pathJoin (elem : List String) : String :=
  match elem.dropWhile (fun e => e == "") with
  | [] => ""
  | rest => pathClean (joinSlash rest)

/-! ## The program: data -/

/-- Name of the generated file (`genFile`). -/
def genFile : String := "version_gen.go"

/-- The anonymous struct type of `vcsGit`. -/
structure VCS where
  name : String
  cmd : String
  dirtyCmd : List String
  versionCmd : List String
deriving DecidableEq, Repr

/-- The variable `vcsGit`. -/
def vcsGit : VCS :=
  { name := ""
    cmd := "git"
    dirtyCmd := ["status", "-z", "--porcelain"]
    versionCmd := ["describe", "--long", "--dirty", "--abbrev=10", "--tags", "--match=v", "--always"] }

/-- The struct `Properties`. -/
structure Properties where
  ID : String
  Description : String
  Hostname : String
  Runtime : String
deriving DecidableEq, Repr

/-- The package-level variables `basePkg`, `runDir`, `genPath`, `prop` (with Go zero values). -/
structure Globals where
  basePkg : String := ""
  runDir : String := ""
  genPath : String := ""
  prop : Option Properties := none
deriving DecidableEq, Repr

/-- Observable effects of a run. -/
inductive Event where
  /-- A line printed through package `log` (prefix included). -/
  | log (line : String)
  /-- The call `cmd.CombinedOutput()` with `cmd.Dir = dir` (an empty `dir` stands for the
  current directory of the process). -/
  | exec (dir : String) (name : String) (args : List String)
  /-- A successful `os.Create`. -/
  | create (path : String)
  /-- The call `f.Write` on the file created at `path`. -/
  | write (path : String) (data : String)
  /-- The deferred `f.Close`. -/
  | close (path : String)
deriving DecidableEq, Repr

/-- Files stored by path. -/
abbrev FS := String → Option String

/-- The surroundings of a run. -/
structure World where
  /-- Function `os.LookupEnv`. -/
  env : String → Option String
  /-- Result of `CombinedOutput` for a command run in directory `dir`. -/
  runCmd : (dir : String) → (name : String) → (args : List String) → Except String String
  /-- Result of `os.Hostname`. -/
  hostname : Except String String
  /-- Result of `runtime.Version`. -/
  goVersion : String
  /-- File name reported by `runtime.Caller(1)` inside `verifyPath`, if any. -/
  caller : Option String
  /-- Function `format.Source`. -/
  formatSource : String → Except String String
  /-- Error of `os.Create` on a path, if it fails. -/
  osCreate : String → Option String
  /-- Result `(n, err)` of writing `data` to the file created at `path`. -/
  fileWrite : (path : String) → (data : String) → Nat × Option String
  /-- The files before the run. -/
  fs : FS

/-- The mutable surroundings: files and the trace of effects so far. -/
structure Sys where
  fs : FS
  trace : List Event

/-- Append an event to the trace. -/
def Sys.emit (s : Sys) (e : Event) : Sys := { s with trace := s.trace ++ [e] }

/-- Store `data` at `path`. -/
def FS.store (fs : FS) (path data : String) : FS :=
  fun q => if q = path then some data else fs q

/-- A line of package `log` after `init`: flags 0, prefix `VERSION::`. -/
def logLine (msg : String) : Event := .log ("VERSION::" ++ msg)

/-! ## Library: the subset of `text/template` used by the program

A template is text interleaved with actions between the delimiters; the only
action of `versionTmpl` is the field access `.Name` on the data value.  Anything else
between the delimiters is rejected by this model.  Executing a field action on a string
prints the string as it is: `text/template` does no escaping. -/

/-- Parsed template nodes: literal text and field actions. -/
inductive Node where
  | text (s : String)
  | field (name : String)
deriving DecidableEq, Repr

/-- The text node for the (reversed) characters read so far; no node for empty text. -/
def textNode (acc : List Char) : List Node :=
  if acc = [] then [] else [.text ⟨acc.reverse⟩]

/-- Identifier characters of a field name (ASCII letters, digits, underscore). -/
def isIdentChar (c : Char) : Bool := c.isAlphanum || c = '_'

/-- An action body: blanks, a dot, an identifier, blanks. -/
def parseAction (body : List Char) : Option Node :=
  match ((body.dropWhile (fun c => c == ' ')).reverse.dropWhile (fun c => c == ' ')).reverse with
  | c :: name =>
    if c = '.' ∧ name ≠ [] ∧ name.all isIdentChar then some (.field ⟨name⟩) else none
  | [] => none

/-- The template lexer and parser.  The flag is true inside an action; `acc` holds the
characters of the current text or action, reversed. -/
def lexTmpl : Bool → List Char → List Char → Option (List Node)
  | false, acc, [] => some (textNode acc)
  | true, _, [] => none                      -- unclosed action
  | false, acc, [c] => some (textNode (c :: acc))
  | true, _, [_] => none                     -- unclosed action
  | false, acc, c :: d :: rest =>
    if c = '\x7b' ∧ d = '\x7b' then (lexTmpl true [] rest).map (fun ns => textNode acc ++ ns)
    else lexTmpl false (c :: acc) (d :: rest)
  | true, acc, c :: d :: rest =>
    if c = '\x7d' ∧ d = '\x7d' then
      match parseAction acc.reverse with
      | none => none
      | some n => (lexTmpl false [] rest).map (fun ns => n :: ns)
    else lexTmpl true (c :: acc) (d :: rest)

/-- Model of `template.New("").Parse(text)`. -/
def templateParse (text : String) : Except String (List Node) :=
  match lexTmpl false [] text.data with
  | some ns => .ok ns
  | none => .error "template: parse error"

/-- Field lookup by name on a `Properties` value. -/
def Properties.fieldNamed (p : Properties) (name : String) : Option String :=
  if name = "ID" then some p.ID
  else if name = "Description" then some p.Description
  else if name = "Hostname" then some p.Hostname
  else if name = "Runtime" then some p.Runtime
  else none

/-- Model of `t.Execute(b, data)` for `data` of type `*Properties`: the text written to the
buffer, or the error (a nil pointer or a missing field; the message is schematic, without
the position that the library puts in front). -/
def templateExecute (data : Option Properties) : List Node → Except String String
  | [] => .ok ""
  | .text s :: rest => (templateExecute data rest).map (fun out => s ++ out)
  | .field f :: rest =>
    match data with
    | none => .error ("template: nil pointer evaluating *main.Properties." ++ f)
    | some p =>
      match p.fieldNamed f with
      | none => .error ("template: cannot evaluate field " ++ f ++ " in type *main.Properties")
      | some v => (templateExecute data rest).map (fun out => v ++ out)

/-! ## The program: code -/

/-- The constant `versionTmpl`. -/
def versionTmpl : String :=
  "\n" ++
  "// Package version IS AUTO GENERATED by [version/gen/gen.go].\n" ++
  "// This package is intended to be used as a method to inject build information\n" ++
  "// during the compiling of a go project either from a developer\x27s desk or from\n" ++
  "// one of our CI tools. DO NOT HAND EDIT THIS FILE!\n" ++
  "package version\n" ++
  "\n" ++
  "var (\n" ++
  "\t// ID is the build id from our build pipeline (DEV if this is a local build).\n" ++
  "\tID = \"\x7b\x7b .ID \x7d\x7d\"\n" ++
  "\n" ++
  "\t// Description is a build description.\n" ++
  "\tDescription = \"\x7b\x7b .Description \x7d\x7d\"\n" ++
  "\n" ++
  "\t// Hostname is the machine hostname that ran the \"go generate\" step.\n" ++
  "\tHostname = \"\x7b\x7b .Hostname \x7d\x7d\"\n" ++
  "\n" ++
  "\t// Runtime is the go runtime version used in compilation.\n" ++
  "\tRuntime = \"\x7b\x7b .Runtime \x7d\x7d\"\n" ++
  ")\n" ++
  "\n" ++
  "// String returns all version information\n" ++
  "func String() string \x7b\n" ++
  "\ts := \"ID:          \" + ID + \"\\n\"\n" ++
  "\ts += \"Description: \" + Description + \"\\n\"\n" ++
  "\ts += \"Hostname:    \" + Hostname + \"\\n\"\n" ++
  "\ts += \"Go Runtime:  \" + Runtime + \"\\n\"\n" ++
  "\treturn s\n" ++
  "\x7d\n"

/-- The function `makeVersion`: returns the error (if any), the package variables and the
surroundings after the call. -/
def makeVersion (w : World) (g : Globals) (s : Sys) : Option String × Globals × Sys :=
  -- cmd := exec.Command(vcsGit.cmd, vcsGit.versionCmd...); cmd.Dir = runDir
  let s1 := s.emit (.exec g.runDir vcsGit.cmd vcsGit.versionCmd)
  match w.runCmd g.runDir vcsGit.cmd vcsGit.versionCmd with
  | .error err => (some err, g, s1)
  | .ok out =>
    let version := trimSpace out
    match w.hostname with
    | .error err => (some err, g, s1)
    | .ok hostname =>
      let prop : Properties :=
        { ID := "DEV", Description := version, Hostname := hostname, Runtime := w.goVersion }
      match w.env "CI_PIPELINE_ID", w.env "CI_BUILD_ID" with
      | some id, some bid =>
        -- fmt.Sprintf("Pipeline %s (Build %s)", id, bid)
        (none, { g with prop := some { prop with ID := "Pipeline " ++ id ++ " (Build " ++ bid ++ ")" } }, s1)
      | _, _ => (none, { g with prop := some prop }, s1)

/-- The function `generate`: returns the pair `(text, error)` and the surroundings. -/
def generate (w : World) (g : Globals) (s : Sys) : (String × Option String) × Sys :=
  let s1 := s.emit (logLine ("generating " ++ g.basePkg ++ " version package\n"))
  match templateParse versionTmpl with
  | .error err => (("", some err), s1)
  | .ok t =>
    match templateExecute g.prop t with
    | .error err => (("", some err), s1)
    | .ok b =>
      match w.formatSource b with
      | .error err => ((b, some err), s1)
      | .ok formatted => ((formatted, none), s1)

/-- How a run ends: the exit status, the package variables and the surroundings. -/
structure Outcome where
  exitCode : Nat
  globals : Globals
  sys : Sys

/-- The calls `log.Fatal`, `log.Fatalln`, `log.Fatalf`: print the line and exit with status 1. -/
def fatal (g : Globals) (s : Sys) (msg : String) : Outcome :=
  { exitCode := 1, globals := g, sys := s.emit (logLine msg) }

/-- The function `verifyPath`: either the process exits, or the package variables are
updated. -/
def verifyPath (w : World) (g : Globals) (s : Sys) : Except Outcome Globals :=
  match w.caller with
  | none => .error (fatal g s "failed to get determine current path\n")
  | some filename =>
    match w.env "GOPATH" with
    | none => .error (fatal g s "$GOPATH is not set in the os env\n")
    | some goPath =>
      .ok { g with
            runDir := pathJoin [goPath, "src", g.basePkg]
            genPath := pathJoin [pathDir filename, "../", genFile] }

/-- The function `write`: returns the error (if any) and the surroundings. -/
def write (w : World) (g : Globals) (s : Sys) (data path : String) : Option String × Sys :=
  let s1 := s.emit (logLine ("writing " ++ g.genPath ++ "\n"))
  match w.osCreate path with
  | some err => (some err, s1)
  | none =>
    -- the file now exists and is empty
    let s2 : Sys := { fs := s1.fs.store path "", trace := s1.trace ++ [.create path] }
    match w.fileWrite path data with
    | (n, some err) =>
      (some err, { fs := s2.fs.store path ⟨data.data.take n⟩,
                   trace := s2.trace ++ [.write path data, .close path] })
    | (_, none) =>
      (none, { fs := s2.fs.store path data,
               trace := s2.trace ++ [.write path data, .close path] })

/-- The function `main`, started with the zero values of the package variables. -/
def main (w : World) : Outcome :=
  let g0 : Globals := {}
  let s0 : Sys := { fs := w.fs, trace := [] }
  match w.env "GOPACKAGE" with
  | none => fatal g0 s0 "$GOPACKAGE is not set in the os env\n"
  | some pkg =>
    let g1 : Globals := { g0 with basePkg := pkg }
    match makeVersion w g1 s0 with
    | (some err, g2, s1) => fatal g2 s1 ("issue determine version:\n" ++ err ++ "\n")
    | (none, g2, s1) =>
      match verifyPath w g2 s1 with
      | .error out => out
      | .ok g3 =>
        match generate w g3 s1 with
        | ((gen, some err), s2) => fatal g3 s2 ("generate error: " ++ err ++ "\n" ++ gen ++ "\n")
        | ((gen, none), s2) =>
          match write w g3 s2 gen g3.genPath with
          | (some err, s3) => fatal g3 s3 ("write error: " ++ err ++ "\n")
          | (none, s3) => { exitCode := 0, globals := g3, sys := s3 }

/-! ## Reading Go source text

A model of the Go scanner, used to say what a rendered text means as Go source: which
tokens it holds and which string a literal denotes.  The scanner is a state machine over
the characters of the text.  Semicolon insertion is not modelled, numbers are read as words,
and characters outside ASCII count as letters. -/

/-- The double quote character. -/
def quoteChar : Char := Char.ofNat 34

/-- The backslash character. -/
def backslashChar : Char := Char.ofNat 92

/-- The apostrophe, delimiter of rune literals. -/
def aposChar : Char := Char.ofNat 39

/-- The back quote, delimiter of raw string literals. -/
def rawQuoteChar : Char := Char.ofNat 96

/-- Value of a digit in the given base (at most 16). -/
def digitVal (base : Nat) (c : Char) : Option Nat :=
  let v :=
    if '0' ≤ c ∧ c ≤ '9' then some (c.toNat - 48)
    else if 'a' ≤ c ∧ c ≤ 'f' then some (c.toNat - 87)
    else if 'A' ≤ c ∧ c ≤ 'F' then some (c.toNat - 55)
    else none
  v.filter (fun d => d < base)

/-- The character of a `\u` or `\U` escape: a valid code point that is no surrogate half. -/
def runeChar (v : Nat) : Option Char :=
  if v < 0xD800 ∨ (0xDFFF < v ∧ v ≤ 0x10FFFF) then some (Char.ofNat v) else none

/-- The character of a byte escape (`\x` or octal); byte values from 0x80 are not characters
of their own and are outside this model. -/
def byteChar (v : Nat) : Option Char :=
  if v < 0x80 then some (Char.ofNat v) else none

/-- Go tokens: words (identifiers, keywords, numbers), string literals with the string they
denote, rune literals, other characters, and the mark of a scanning error. -/
inductive GoToken where
  | word (s : String)
  | str (value : String)
  | rune (value : String)
  | op (c : Char)
  | bad
deriving DecidableEq, Repr

/-- States of the scanner. -/
inductive ScanMode where
  /-- Between tokens. -/
  | code
  /-- After a slash that may start a comment. -/
  | slash
  /-- Inside a `//` comment. -/
  | lineComment
  /-- Inside a block comment; the flag tells that the last character was a star. -/
  | blockComment (star : Bool)
  /-- Inside a word, with its characters so far. -/
  | word (acc : List Char)
  /-- Inside an interpreted string or rune literal with delimiter `q`, with the characters
  denoted so far. -/
  | lit (q : Char) (acc : List Char)
  /-- After a backslash inside a literal. -/
  | esc (q : Char) (acc : List Char)
  /-- Inside a numeric escape: the base, the digits still to read, the value so far, and
  whether the value is a code point (`\u`, `\U`) or a byte. -/
  | num (q : Char) (acc : List Char) (base left value : Nat) (isRune : Bool)
  /-- Inside a raw string literal. -/
  | raw (acc : List Char)
  /-- After a scanning error: nothing more is read. -/
  | dead
deriving DecidableEq, Repr

/-- Characters of words. -/
def isWordChar (c : Char) : Bool := c.isAlphanum || c = '_' || 0x80 ≤ c.toNat

/-- The token of a finished literal with delimiter `q`. -/
def litToken (q : Char) (acc : List Char) : GoToken :=
  if q = quoteChar then .str ⟨acc⟩ else .rune ⟨acc⟩

/-- One character read between tokens. -/
def stepCode (c : Char) : List GoToken × ScanMode :=
  if c = ' ' ∨ c = '\t' ∨ c = '\n' ∨ c = '\r' then ([], .code)
  else if c = '/' then ([], .slash)
  else if c = quoteChar then ([], .lit quoteChar [])
  else if c = aposChar then ([], .lit aposChar [])
  else if c = rawQuoteChar then ([], .raw [])
  else if c.toNat = 0 ∨ c.toNat = 0xFEFF then ([.bad], .dead)
  else if isWordChar c then ([], .word [c])
  else ([.op c], .code)

/-- One character read after a backslash in a literal with delimiter `q`. -/
def stepEscape (q : Char) (acc : List Char) (c : Char) : List GoToken × ScanMode :=
  if c = 'a' then ([], .lit q (acc ++ [Char.ofNat 7]))
  else if c = 'b' then ([], .lit q (acc ++ [Char.ofNat 8]))
  else if c = 'f' then ([], .lit q (acc ++ [Char.ofNat 12]))
  else if c = 'n' then ([], .lit q (acc ++ [Char.ofNat 10]))
  else if c = 'r' then ([], .lit q (acc ++ [Char.ofNat 13]))
  else if c = 't' then ([], .lit q (acc ++ [Char.ofNat 9]))
  else if c = 'v' then ([], .lit q (acc ++ [Char.ofNat 11]))
  else if c = backslashChar then ([], .lit q (acc ++ [backslashChar]))
  else if c = q then ([], .lit q (acc ++ [q]))
  else if c = 'x' then ([], .num q acc 16 2 0 false)
  else if c = 'u' then ([], .num q acc 16 4 0 true)
  else if c = 'U' then ([], .num q acc 16 8 0 true)
  else
    match digitVal 8 c with
    | some d => ([], .num q acc 8 2 d false)
    | none => ([.bad], .dead)

/-- One character read by the scanner: the tokens completed and the next state. -/
def scanStep (m : ScanMode) (c : Char) : List GoToken × ScanMode :=
  match m with
  | .code => stepCode c
  | .slash =>
    if c = '/' then ([], .lineComment)
    else if c = '*' then ([], .blockComment false)
    else (.op '/' :: (stepCode c).1, (stepCode c).2)
  | .lineComment => if c = '\n' then ([], .code) else ([], .lineComment)
  | .blockComment star =>
    if star ∧ c = '/' then ([], .code) else ([], .blockComment (c = '*'))
  | .word acc =>
    if isWordChar c then ([], .word (acc ++ [c]))
    else (.word ⟨acc⟩ :: (stepCode c).1, (stepCode c).2)
  | .lit q acc =>
    if c = q then ([litToken q acc], .code)
    else if c = '\n' ∨ c.toNat = 0 ∨ c.toNat = 0xFEFF then ([.bad], .dead)
    else if c = backslashChar then ([], .esc q acc)
    else ([], .lit q (acc ++ [c]))
  | .esc q acc => stepEscape q acc c
  | .num q acc base left value isRune =>
    match digitVal base c with
    | none => ([.bad], .dead)
    | some d =>
      if left ≤ 1 then
        match (if isRune then runeChar (value * base + d) else byteChar (value * base + d)) with
        | some ch => ([], .lit q (acc ++ [ch]))
        | none => ([.bad], .dead)
      else ([], .num q acc base (left - 1) (value * base + d) isRune)
  | .raw acc =>
    if c = rawQuoteChar then ([.str ⟨acc⟩], .code)
    else if c = '\r' then ([], .raw acc)
    else ([], .raw (acc ++ [c]))
  | .dead => ([], .dead)

/-- The scanner run over a list of characters from a state: the tokens completed and the
state reached. -/
def scanRun : ScanMode → List Char → List GoToken × ScanMode
  | m, [] => ([], m)
  | m, c :: cs => ((scanStep m c).1 ++ (scanRun (scanStep m c).2 cs).1,
      (scanRun (scanStep m c).2 cs).2)

/-- The tokens owed at the end of the text: a pending word or slash, or an error for an
unfinished literal or block comment. -/
def scanFinish : ScanMode → List GoToken
  | .code => []
  | .lineComment => []
  | .dead => []
  | .slash => [.op '/']
  | .word acc => [.word ⟨acc⟩]
  | _ => [.bad]

/-- The Go tokens of a text, up to the first scanning error. -/
def goTokens (text : String) : List GoToken :=
  (scanRun .code text.data).1 ++ scanFinish (scanRun .code text.data).2

/-- The string denoted by the first string literal assigned to the name in a token list:
the first place where the word `name`, the sign `=` and a string literal follow each
other. -/
def assignedLiteral (name : String) : List GoToken → Option String
  | [] => none
  | t :: rest =>
    if t = .word name ∧ rest.head? = some (.op '=') then
      match rest.tail.head? with
      | some (.str v) => some v
      | _ => assignedLiteral name rest
    else assignedLiteral name rest

/-- A stand-in for `format.Source` in the sample runs: it rejects a text with a scanning
error and removes the blank lines at the start of the text, which is what the formatter
does to the text rendered from `versionTmpl` with plain values. -/
def layoutFormat (text : String) : Except String String :=
  if GoToken.bad ∈ goTokens text then .error "syntax error"
  else .ok ⟨text.data.dropWhile (fun c => c == '\n')⟩

/-! ## Notions used in the statements -/

/-- The text before the value of `ID` in the template. -/
def tmplHead : String :=
  "\n" ++
  "// Package version IS AUTO GENERATED by [version/gen/gen.go].\n" ++
  "// This package is intended to be used as a method to inject build information\n" ++
  "// during the compiling of a go project either from a developer\x27s desk or from\n" ++
  "// one of our CI tools. DO NOT HAND EDIT THIS FILE!\n" ++
  "package version\n" ++
  "\n" ++
  "var (\n" ++
  "\t// ID is the build id from our build pipeline (DEV if this is a local build).\n" ++
  "\tID = \""

/-- The text between the values of `ID` and `Description` in the template. -/
def tmplAfterID : String :=
  "\"\n" ++
  "\n" ++
  "\t// Description is a build description.\n" ++
  "\tDescription = \""

/-- The text between the values of `Description` and `Hostname` in the template. -/
def tmplAfterDescription : String :=
  "\"\n" ++
  "\n" ++
  "\t// Hostname is the machine hostname that ran the \"go generate\" step.\n" ++
  "\tHostname = \""

/-- The text between the values of `Hostname` and `Runtime` in the template. -/
def tmplAfterHostname : String :=
  "\"\n" ++
  "\n" ++
  "\t// Runtime is the go runtime version used in compilation.\n" ++
  "\tRuntime = \""

/-- The text after the value of `Runtime` in the template. -/
def tmplTail : String :=
  "\"\n" ++
  ")\n" ++
  "\n" ++
  "// String returns all version information\n" ++
  "func String() string \x7b\n" ++
  "\ts := \"ID:          \" + ID + \"\\n\"\n" ++
  "\ts += \"Description: \" + Description + \"\\n\"\n" ++
  "\ts += \"Hostname:    \" + Hostname + \"\\n\"\n" ++
  "\ts += \"Go Runtime:  \" + Runtime + \"\\n\"\n" ++
  "\treturn s\n" ++
  "\x7d\n"

/-- The template with the four field values put in place of the four actions. -/
def substituted (p : Properties) : String :=
  tmplHead ++ (p.ID ++ (tmplAfterID ++ (p.Description ++ (tmplAfterDescription ++
    (p.Hostname ++ (tmplAfterHostname ++ (p.Runtime ++ tmplTail)))))))

/-- The string denoted by the literal assigned to `Description` in a text read as Go
source. -/
def descriptionLiteral (text : String) : Option String :=
  assignedLiteral "Description" (goTokens text)

/-- The formatter changes the layout of the text `t` only: a successful output has the Go
tokens of `t`. -/
def KeepsTokens (fmt : String → Except String String) (t : String) : Prop :=
  ∀ f, fmt t = .ok f → goTokens f = goTokens t

/-- A value that an interpreted string literal holds unchanged: no double quote, no
backslash, no line feed, no NUL and no byte order mark. -/
def LiteralPlain (s : String) : Prop :=
  ∀ c ∈ s.data, c ≠ quoteChar ∧ c ≠ backslashChar ∧ c ≠ '\n' ∧ c.toNat ≠ 0 ∧ c.toNat ≠ 0xFEFF

/-- A clean absolute path: it starts with a slash and `path.Clean` leaves it unchanged. -/
def IsCleanAbs (d : String) : Prop :=
  d.data.head? = some '/' ∧ pathClean d = d

/-- The path of the entry `name` in the directory `d` (written `d/name`). -/
def childPath (d name : String) : String :=
  if d = "/" then "/" ++ name else d ++ "/" ++ name

/-! ## Tag patterns of `git describe --match` -/

/-- True when `f` holds of some suffix of the list. -/
def anySuffix (f : List Char → Bool) : List Char → Bool
  | [] => f []
  | c :: s => f (c :: s) || anySuffix f s

/-- Glob matching of a whole name against a pattern, as `git describe --match` does it, for
patterns made of ordinary characters, `?`, `*` and backslash escapes (bracket expressions
are not modelled). -/
def globMatch : List Char → List Char → Bool
  | [], s => s.isEmpty
  | c :: pat, s =>
    if c = '*' then anySuffix (globMatch pat) s
    else if c = '?' then
      match s with
      | [] => false
      | _ :: t => globMatch pat t
    else if c = backslashChar then
      match pat, s with
      | e :: pat1, x :: t => x = e && globMatch pat1 t
      | _, _ => false
    else
      match s with
      | [] => false
      | x :: t => x = c && globMatch pat t

/-- The patterns given by the `--match=` arguments of a command line (`git describe`
accumulates them). -/
def matchPatterns (args : List String) : List String :=
  args.filterMap (fun a =>
    if "--match=".data.isPrefixOf a.data then some ⟨a.data.drop 8⟩ else none)

/-- Whether `git describe` run with `vcsGit.versionCmd` considers the tag `name`: without a
pattern every tag is considered, otherwise the tags matching one of the patterns. -/
def tagAccepted (name : String) : Bool :=
  (matchPatterns vcsGit.versionCmd).isEmpty ||
    (matchPatterns vcsGit.versionCmd).any (fun pat => globMatch pat.data name.data)

/-! ## Concrete runs -/

/-- An environment given by a list of bindings. -/
def envOf (kvs : List (String × String)) : String → Option String :=
  fun k => kvs.lookup k

/-- A developer run: no CI variables, `git describe` prints `out`, and the formatter is
the stand-in `layoutFormat`. -/
def devWorld (out : String) : World :=
  { env := envOf [("GOPACKAGE", "version"), ("GOPATH", "/go")]
    runCmd := fun _ _ _ => .ok out
    hostname := .ok "buildhost"
    goVersion := "go1.9"
    caller := some "/go/src/version/gen/gen.go"
    formatSource := layoutFormat
    osCreate := fun _ => none
    fileWrite := fun _ data => (data.length, none)
    fs := fun _ => none }

/-- A CI run: pipeline 42, build 7. -/
def ciWorld : World :=
  { devWorld "v1.2.0-3-gabc1234567\n" with
    env := envOf [("GOPACKAGE", "version"), ("GOPATH", "/go"), ("CI_PIPELINE_ID", "42"),
      ("CI_BUILD_ID", "7")] }

/-- The surroundings before a run in a world. -/
def World.start (w : World) : Sys := { fs := w.fs, trace := [] }

/-! ## Lemmas on `path.Clean` -/

/-- A slash after the rest looks like the end of the path to the element test. -/
theorem atElemEnd_append_slash (xs ys : List Char) :
    atElemEnd (xs ++ '/' :: ys) = atElemEnd xs := by
  cases xs <;> simp [atElemEnd]

/-- One step of the loop while it copies a path element. -/
theorem cleanLoop_copy_cons (rooted : Bool) (c : Char) (rest : List Char) (st : List Char × Nat) :
    cleanLoop rooted true (c :: rest) st
      = if c = '/' then cleanLoop rooted false rest st
        else cleanLoop rooted true rest (st.1 ++ [c], st.2) := by
  rw [cleanLoop]

/-- The loop on the last character of the path. -/
theorem cleanLoop_single (rooted : Bool) (c : Char) (st : List Char × Nat) :
    cleanLoop rooted false [c] st
      = if c = '/' then st else if c = '.' then st
        else (startElem rooted st.1 ++ [c], st.2) := by
  rw [cleanLoop]

/-- One step of the loop with at least two characters left. -/
theorem cleanLoop_cons_cons (rooted : Bool) (c d : Char) (rest : List Char)
    (st : List Char × Nat) :
    cleanLoop rooted false (c :: d :: rest) st
      = if c = '/' then cleanLoop rooted false (d :: rest) st
        else if c = '.' ∧ d = '/' then cleanLoop rooted false (d :: rest) st
        else if c = '.' ∧ d = '.' ∧ atElemEnd rest then
          cleanLoop rooted false rest (dotdotStep rooted st)
        else cleanLoop rooted true (d :: rest) (startElem rooted st.1 ++ [c], st.2) := by
  conv_lhs => rw [cleanLoop]

/-- A slash is skipped, and ends the copy of a path element. -/
theorem cleanLoop_slash (rooted m : Bool) (ys : List Char) (st : List Char × Nat) :
    cleanLoop rooted m ('/' :: ys) st = cleanLoop rooted false ys st := by
  cases m
  · cases ys with
    | nil => rw [cleanLoop_single]; simp [cleanLoop]
    | cons d rest => rw [cleanLoop_cons_cons]; simp
  · rw [cleanLoop_copy_cons]; simp

/-- The loop on a path cut at a slash: run it on the first part, then on the second part from
the state reached. -/
theorem cleanLoop_append_slash (rooted : Bool) (ys : List Char) :
    ∀ (n : Nat) (xs : List Char), xs.length ≤ n → ∀ (m : Bool) (st : List Char × Nat),
      cleanLoop rooted m (xs ++ '/' :: ys) st
        = cleanLoop rooted false ys (cleanLoop rooted m xs st) := by
  intro n
  induction n with
  | zero =>
    intro xs hxs m st
    have : xs = [] := List.length_eq_zero.mp (Nat.le_zero.mp hxs)
    subst this
    rw [List.nil_append, cleanLoop_slash]
    cases m <;> simp [cleanLoop]
  | succ n ih =>
    intro xs hxs m st
    match xs, m with
    | [], m =>
      rw [List.nil_append, cleanLoop_slash]
      cases m <;> simp [cleanLoop]
    | c :: rest, true =>
      have hr : rest.length ≤ n := by simpa using hxs
      rw [List.cons_append, cleanLoop_copy_cons, cleanLoop_copy_cons]
      split
      · exact ih rest hr false st
      · exact ih rest hr true _
    | [c], false =>
      rw [List.cons_append, List.nil_append, cleanLoop_cons_cons, cleanLoop_single,
        cleanLoop_slash, cleanLoop_slash]
      by_cases h1 : c = '/'
      · simp [h1]
      · by_cases h2 : c = '.'
        · simp [h2]
        · simp [h1, h2, cleanLoop]
    | c :: d :: rest, false =>
      have hr : (d :: rest).length ≤ n := by simpa using hxs
      have hr2 : rest.length ≤ n := by
        simp at hxs; omega
      have e1 := ih (d :: rest) hr
      have e2 := ih rest hr2
      rw [List.cons_append, List.cons_append, cleanLoop_cons_cons, cleanLoop_cons_cons,
        atElemEnd_append_slash]
      rw [List.cons_append] at e1
      split
      · exact e1 false st
      · split
        · exact e1 false st
        · split
          · exact e2 false _
          · exact e1 true _

/-- For a rooted path the index `dotdot` never moves. -/
theorem cleanLoop_rooted_dotdot (xs : List Char) :
    ∀ (n : Nat), xs.length ≤ n → ∀ (m : Bool) (st : List Char × Nat),
      (cleanLoop true m xs st).2 = st.2 := by
  intro n
  induction n generalizing xs with
  | zero =>
    intro hxs m st
    have : xs = [] := List.length_eq_zero.mp (Nat.le_zero.mp hxs)
    subst this
    cases m <;> simp [cleanLoop]
  | succ n ih =>
    intro hxs m st
    match xs, m with
    | [], m => cases m <;> simp [cleanLoop]
    | c :: rest, true =>
      have hr : rest.length ≤ n := by simpa using hxs
      rw [cleanLoop_copy_cons]
      split
      · exact ih rest hr false st
      · exact ih rest hr true _
    | [c], false =>
      rw [cleanLoop_single]
      split
      · rfl
      · split <;> rfl
    | c :: d :: rest, false =>
      have hr : (d :: rest).length ≤ n := by simpa using hxs
      have hr2 : rest.length ≤ n := by
        simp at hxs; omega
      rw [cleanLoop_cons_cons]
      split
      · exact ih _ hr false st
      · split
        · exact ih _ hr false st
        · split
          · rw [ih _ hr2 false _]
            simp only [dotdotStep]
            split
            · rfl
            · simp
          · exact ih _ hr true _

/-- Cleaning a path that extends a clean absolute path `d` by a slash and more: the loop
continues from the buffer `d`. -/
theorem cleanChars_extend (d ys : List Char) (hhead : d.head? = some '/')
    (hclean : cleanChars d = d) :
    cleanChars (d ++ '/' :: ys)
      = if (cleanLoop true false ys (d, 1)).1.length = 0 then ['.']
        else (cleanLoop true false ys (d, 1)).1 := by
  match d, hhead with
  | c :: rest, hhead =>
    have hc : c = '/' := by simpa using hhead
    subst hc
    have hst : cleanLoop true false rest (['/'], 1) = ('/' :: rest, 1) := by
      have h2 := cleanLoop_rooted_dotdot rest rest.length (le_refl _) false (['/'], 1)
      have h1 : (cleanLoop true false rest (['/'], 1)).1 = '/' :: rest := by
        have := hclean
        simp only [cleanChars, if_true] at this
        split at this
        · simp at this
        · exact this
      exact Prod.ext h1 h2
    simp only [List.cons_append, cleanChars, if_true]
    rw [cleanLoop_append_slash true ys rest.length rest (le_refl _) false (['/'], 1), hst]

/-- Indexing past the first of two appended lists. -/
theorem getD_append_add (d l : List Char) (i : Nat) (x : Char) :
    (d ++ l).getD (d.length + i) x = l.getD i x := by
  induction d with
  | nil => simp
  | cons a d ih =>
    have : (a :: d).length + i = (d.length + i) + 1 := by simp; omega
    rw [this, List.cons_append, List.getD_cons_succ, ih]

/-- The backtracking loop steps over a character that is no slash. -/
theorem backtrack_skip (buf : List Char) (dd w : Nat) (h1 : dd < w + 1)
    (h2 : buf.getD (w + 1) '/' ≠ '/') :
    backtrack buf dd (w + 1) = backtrack buf dd w := by
  rw [backtrack, if_pos ⟨h1, h2⟩]

/-- The backtracking loop stops at a slash. -/
theorem backtrack_stop (buf : List Char) (dd w : Nat) (h : buf.getD w '/' = '/') :
    backtrack buf dd w = w := by
  cases w with
  | zero => rfl
  | succ n => rw [backtrack, if_neg (fun hh => hh.2 h)]

/-- Backtracking over the element `gen` at the end of the buffer. -/
theorem backtrack_gen (d : List Char) (hd : 1 ≤ d.length) :
    backtrack (d ++ ['/', 'g', 'e', 'n']) 1 (d.length + 3) = d.length := by
  have h3 : (d ++ ['/', 'g', 'e', 'n']).getD (d.length + 2 + 1) '/' ≠ '/' := by
    rw [show d.length + 2 + 1 = d.length + 3 from rfl, getD_append_add]; decide
  have h2 : (d ++ ['/', 'g', 'e', 'n']).getD (d.length + 1 + 1) '/' ≠ '/' := by
    rw [show d.length + 1 + 1 = d.length + 2 from rfl, getD_append_add]; decide
  have h1 : (d ++ ['/', 'g', 'e', 'n']).getD (d.length + 1) '/' ≠ '/' := by
    rw [getD_append_add]; decide
  have h0 : (d ++ ['/', 'g', 'e', 'n']).getD d.length '/' = '/' := by
    have := getD_append_add d ['/', 'g', 'e', 'n'] 0 '/'
    simpa using this
  rw [show d.length + 3 = d.length + 2 + 1 from rfl, backtrack_skip _ _ _ (by omega) h3,
    backtrack_skip _ _ _ (by omega) h2, backtrack_skip _ _ _ (by omega) h1,
    backtrack_stop _ _ _ h0]

/-- Cleaning `d/gen/`, the directory part of `d/gen/gen.go`. -/
theorem cleanChars_gen_dir (d : List Char) (hhead : d.head? = some '/')
    (hclean : cleanChars d = d) (hlen : d.length ≠ 1) :
    cleanChars (d ++ ['/', 'g', 'e', 'n', '/']) = d ++ ['/', 'g', 'e', 'n'] := by
  rw [cleanChars_extend d _ hhead hclean]
  simp [cleanLoop, startElem, hlen]

/-- Cleaning `d/gen/..//version_gen.go`. -/
theorem cleanChars_gen_up (d : List Char) (hhead : d.head? = some '/')
    (hclean : cleanChars d = d) (hlen : d.length ≠ 1) :
    cleanChars (d ++ ['/', 'g', 'e', 'n'] ++ '/' :: ("../" ++ "/" ++ genFile).data)
      = d ++ '/' :: genFile.data := by
  have hpos : 1 ≤ d.length := by
    cases d with
    | nil => simp at hhead
    | cons a t => simp
  have e : d ++ ['/', 'g', 'e', 'n'] ++ '/' :: ("../" ++ "/" ++ genFile).data
      = d ++ '/' :: ("gen/..//version_gen.go").data := by
    simp [genFile]
  rw [e, cleanChars_extend d _ hhead hclean]
  have hb := backtrack_gen d hpos
  simp [cleanLoop, startElem, hlen, dotdotStep, atElemEnd, genFile, hb]

/-- A path other than the root has other characters than one slash. -/
theorem length_ne_one_of_ne_root (D : String) (hne : D ≠ "/") : D.data ≠ ['/'] := by
  intro h
  exact hne (String.ext h)

/-- An absolute path other than the root has more than one character. -/
theorem data_length_ne_one (D : String) (hhead : D.data.head? = some '/') (hne : D ≠ "/") :
    D.data.length ≠ 1 := by
  intro h
  apply length_ne_one_of_ne_root D hne
  match hd : D.data, hhead, h with
  | [c], hhead, _ =>
    have : c = '/' := by simpa [hd] using hhead
    rw [this]

/-- The directory of `D/gen/gen.go` is `D/gen`. -/
theorem pathDir_gen (D : String) (hD : IsCleanAbs D) (hne : D ≠ "/") :
    pathDir (D ++ "/" ++ "gen/gen.go") = D ++ "/gen" := by
  have hclean : cleanChars D.data = D.data := congrArg String.data hD.2
  apply String.ext
  have e : splitDir (D ++ "/" ++ "gen/gen.go").data = D.data ++ ['/', 'g', 'e', 'n', '/'] := by
    simp [splitDir, List.dropWhile]
  simp only [pathDir, e]
  rw [cleanChars_gen_dir D.data hD.1 hclean (data_length_ne_one D hD.1 hne)]
  simp

/-- Joining `D/gen`, `../` and the file name gives the file in `D`. -/
theorem pathJoin_gen_up (D : String) (hD : IsCleanAbs D) (hne : D ≠ "/") :
    pathJoin [D ++ "/gen", "../", genFile] = D ++ "/" ++ genFile := by
  have hclean : cleanChars D.data = D.data := congrArg String.data hD.2
  have hnonempty : ((D ++ "/gen") == "") = false := by
    rw [beq_eq_false_iff_ne]
    intro h
    have := congrArg String.data h
    simp at this
  have e : (joinSlash [D ++ "/gen", "../", genFile]).data
      = D.data ++ ['/', 'g', 'e', 'n'] ++ '/' :: ("../" ++ "/" ++ genFile).data := by
    simp [joinSlash]
  apply String.ext
  simp only [pathJoin, List.dropWhile, hnonempty, pathClean, e]
  rw [cleanChars_gen_up D.data hD.1 hclean (data_length_ne_one D hD.1 hne)]
  simp

/-- The directory of an entry of `D` is `D`. -/
theorem pathDir_child (D name : String) (hD : IsCleanAbs D)
    (hname : ∀ c ∈ name.data, c ≠ '/') :
    pathDir (D ++ "/" ++ name) = D := by
  have hclean : cleanChars D.data = D.data := congrArg String.data hD.2
  have hdrop : ∀ (l acc : List Char), (∀ c ∈ l, c ≠ '/') →
      List.dropWhile (fun c => c != '/') (l ++ '/' :: acc) = '/' :: acc := by
    intro l acc hl
    induction l with
    | nil => simp [List.dropWhile]
    | cons a t ih =>
      have ha : a ≠ '/' := hl a (by simp)
      rw [List.cons_append, List.dropWhile_cons_of_pos (by simpa using ha)]
      exact ih (fun c hc => hl c (by simp [hc]))
  have e : splitDir (D ++ "/" ++ name).data = D.data ++ ['/'] := by
    have hrev : ∀ c ∈ name.data.reverse, c ≠ '/' := fun c hc => hname c (by simpa using hc)
    simp only [splitDir, String.data_append, List.reverse_append]
    rw [List.reverse_singleton, List.singleton_append, hdrop _ _ hrev]
    simp
  apply String.ext
  simp only [pathDir, e]
  rw [cleanChars_extend D.data [] hD.1 hclean]
  have hlen : D.length ≠ 0 := by
    intro h
    have h0 : D.data.length = 0 := h
    have := hD.1
    rw [List.length_eq_zero.mp h0] at this
    simp at this
  simp [cleanLoop, hlen]

set_option maxRecDepth 100000

/-! ## The template and `generate` -/

/-- The parse of the template: five pieces of text around four field actions. -/
theorem templateParse_versionTmpl :
    templateParse versionTmpl
      = .ok [.text tmplHead, .field "ID", .text tmplAfterID, .field "Description",
          .text tmplAfterDescription, .field "Hostname", .text tmplAfterHostname,
          .field "Runtime", .text tmplTail] := by
  rfl

/-- Executing the parsed template on a `Properties` value puts the four values in place. -/
theorem templateExecute_some (p : Properties) :
    templateExecute (some p)
        [.text tmplHead, .field "ID", .text tmplAfterID, .field "Description",
          .text tmplAfterDescription, .field "Hostname", .text tmplAfterHostname,
          .field "Runtime", .text tmplTail]
      = .ok (substituted p) := by
  simp [templateExecute, Properties.fieldNamed, substituted, Except.map]

/-- Executing the parsed template on a nil pointer fails. -/
theorem templateExecute_none :
    templateExecute none
        [.text tmplHead, .field "ID", .text tmplAfterID, .field "Description",
          .text tmplAfterDescription, .field "Hostname", .text tmplAfterHostname,
          .field "Runtime", .text tmplTail]
      = .error "template: nil pointer evaluating *main.Properties.ID" := by
  simp [templateExecute, Except.map]

/-- The result of `generate` when `prop` is set. -/
theorem generate_some (w : World) (g : Globals) (s : Sys) (p : Properties)
    (hp : g.prop = some p) :
    (generate w g s).1
      = match w.formatSource (substituted p) with
        | .error err => (substituted p, some err)
        | .ok formatted => (formatted, none) := by
  simp only [generate, templateParse_versionTmpl, hp, templateExecute_some]
  cases w.formatSource (substituted p) <;> rfl

/-- The result of `generate` when `prop` is nil. -/
theorem generate_none (w : World) (g : Globals) (s : Sys) (hp : g.prop = none) :
    (generate w g s).1 = ("", some "template: nil pointer evaluating *main.Properties.ID") := by
  simp only [generate, templateParse_versionTmpl, hp, templateExecute_none]

/-- The text rendered from the template is never empty. -/
theorem substituted_ne_empty (p : Properties) : substituted p ≠ "" := by
  intro h
  have := congrArg String.data h
  simp [substituted, tmplHead] at this

/-- The surroundings after `generate`: one more log line. -/
theorem generate_sys (w : World) (g : Globals) (s : Sys) :
    (generate w g s).2 = s.emit (logLine ("generating " ++ g.basePkg ++ " version package\n")) := by
  cases hp : g.prop with
  | none =>
    simp only [generate, templateParse_versionTmpl, hp, templateExecute_none]
  | some p =>
    simp only [generate, templateParse_versionTmpl, hp, templateExecute_some]
    cases w.formatSource (substituted p) <;> rfl

/-! ## `makeVersion` -/

/-- The result of `makeVersion` when the command and the hostname lookup succeed. -/
theorem makeVersion_ok (w : World) (g : Globals) (s : Sys) (out host : String)
    (hout : w.runCmd g.runDir vcsGit.cmd vcsGit.versionCmd = .ok out)
    (hhost : w.hostname = .ok host) :
    makeVersion w g s
      = (none,
          { g with prop := some (Properties.mk
              (match w.env "CI_PIPELINE_ID", w.env "CI_BUILD_ID" with
                | some id, some bid => "Pipeline " ++ id ++ " (Build " ++ bid ++ ")"
                | _, _ => "DEV")
              (trimSpace out) host w.goVersion) },
          s.emit (.exec g.runDir vcsGit.cmd vcsGit.versionCmd)) := by
  simp only [makeVersion, hout, hhost]
  cases w.env "CI_PIPELINE_ID" <;> cases w.env "CI_BUILD_ID" <;> rfl

/-- The result of `makeVersion` when the command fails. -/
theorem makeVersion_cmd_error (w : World) (g : Globals) (s : Sys) (err : String)
    (hout : w.runCmd g.runDir vcsGit.cmd vcsGit.versionCmd = .error err) :
    makeVersion w g s = (some err, g, s.emit (.exec g.runDir vcsGit.cmd vcsGit.versionCmd)) := by
  simp only [makeVersion, hout]

/-- The result of `makeVersion` when the hostname lookup fails. -/
theorem makeVersion_host_error (w : World) (g : Globals) (s : Sys) (out err : String)
    (hout : w.runCmd g.runDir vcsGit.cmd vcsGit.versionCmd = .ok out)
    (hhost : w.hostname = .error err) :
    makeVersion w g s = (some err, g, s.emit (.exec g.runDir vcsGit.cmd vcsGit.versionCmd)) := by
  simp only [makeVersion, hout, hhost]

/-- A successful `makeVersion` means that the command and the hostname lookup succeeded. -/
theorem makeVersion_success (w : World) (g g1 : Globals) (s s1 : Sys)
    (h : makeVersion w g s = (none, g1, s1)) :
    ∃ out host, w.runCmd g.runDir vcsGit.cmd vcsGit.versionCmd = .ok out ∧
      w.hostname = .ok host := by
  cases hout : w.runCmd g.runDir vcsGit.cmd vcsGit.versionCmd with
  | error err => rw [makeVersion_cmd_error w g s err hout] at h; simp at h
  | ok out =>
    cases hhost : w.hostname with
    | error err => rw [makeVersion_host_error w g s out err hout hhost] at h; simp at h
    | ok host => exact ⟨out, host, rfl, rfl⟩

/-- The sentinel is not of the pipeline form. -/
theorem dev_ne_pipeline (a b : String) : "DEV" ≠ "Pipeline " ++ a ++ " (Build " ++ b ++ ")" := by
  intro h
  have := congrArg String.data h
  simp at this

/-- The run of `main` when `GOPACKAGE` is unset. -/
theorem main_no_package (w : World) (h : w.env "GOPACKAGE" = none) :
    main w = fatal {} w.start "$GOPACKAGE is not set in the os env\n" := by
  simp only [main, h]
  rfl

/-! ## Runs of `main` -/

/-- The surroundings after `makeVersion`: one more event, the command execution. -/
theorem makeVersion_sys (w : World) (g : Globals) (s : Sys) :
    (makeVersion w g s).2.2 = s.emit (.exec g.runDir vcsGit.cmd vcsGit.versionCmd) := by
  cases hout : w.runCmd g.runDir vcsGit.cmd vcsGit.versionCmd with
  | error err => rw [makeVersion_cmd_error w g s err hout]
  | ok out =>
    cases hhost : w.hostname with
    | error err => rw [makeVersion_host_error w g s out err hout hhost]
    | ok host => rw [makeVersion_ok w g s out host hout hhost]

/-- A failing `makeVersion` leaves the package variables as they were. -/
theorem makeVersion_error_globals (w : World) (g g1 : Globals) (s s1 : Sys) (err : String)
    (h : makeVersion w g s = (some err, g1, s1)) : g1 = g := by
  cases hout : w.runCmd g.runDir vcsGit.cmd vcsGit.versionCmd with
  | error e =>
    rw [makeVersion_cmd_error w g s e hout] at h
    exact (congrArg (fun r => r.2.1) h).symm
  | ok out =>
    cases hhost : w.hostname with
    | error e =>
      rw [makeVersion_host_error w g s out e hout hhost] at h
      exact (congrArg (fun r => r.2.1) h).symm
    | ok host =>
      rw [makeVersion_ok w g s out host hout hhost] at h
      simp at h

/-- The run of `main` when `makeVersion` fails. -/
theorem main_makeVersion_error (w : World) (pkg err : String)
    (hpkg : w.env "GOPACKAGE" = some pkg)
    (hmv : (makeVersion w { basePkg := pkg } w.start).1 = some err) :
    main w = fatal { basePkg := pkg }
      (w.start.emit (.exec "" vcsGit.cmd vcsGit.versionCmd))
      ("issue determine version:\n" ++ err ++ "\n") := by
  have hsys := makeVersion_sys w { basePkg := pkg } w.start
  rcases hres : makeVersion w { basePkg := pkg } w.start with ⟨e, g2, s1⟩
  rw [hres] at hmv hsys
  simp only at hmv hsys
  subst hmv
  have hg := makeVersion_error_globals w _ g2 _ s1 err hres
  subst hg
  subst hsys
  simp only [main, hpkg]
  rw [show ({ fs := w.fs, trace := [] } : Sys) = w.start from rfl, hres]

/-- The function `verifyPath` keeps `prop` and `basePkg`. -/
theorem verifyPath_keeps (w : World) (g g1 : Globals) (s : Sys)
    (h : verifyPath w g s = .ok g1) : g1.prop = g.prop ∧ g1.basePkg = g.basePkg := by
  unfold verifyPath at h
  cases hc : w.caller with
  | none => simp [hc] at h
  | some filename =>
    cases hg : w.env "GOPATH" with
    | none => simp [hc, hg] at h
    | some goPath =>
      simp only [hc, hg, Except.ok.injEq] at h
      subst h
      exact ⟨rfl, rfl⟩

/-- A fatal exit of `verifyPath` adds one log line and nothing else. -/
theorem verifyPath_error (w : World) (g : Globals) (s : Sys) (o : Outcome)
    (h : verifyPath w g s = .error o) :
    o.exitCode = 1 ∧ o.sys.fs = s.fs ∧ ∃ line, o.sys.trace = s.trace ++ [.log line] := by
  unfold verifyPath at h
  cases hc : w.caller with
  | none =>
    simp only [hc, Except.error.injEq] at h
    subst h
    exact ⟨rfl, rfl, _, rfl⟩
  | some filename =>
    cases hg : w.env "GOPATH" with
    | none =>
      simp only [hc, hg, Except.error.injEq] at h
      subst h
      exact ⟨rfl, rfl, _, rfl⟩
    | some goPath => simp [hc, hg] at h

/-- The events of `write`: the log line, and after a successful `os.Create` the creation,
the write of exactly `data` and the close, all on `path`. -/
theorem write_trace (w : World) (g : Globals) (s : Sys) (data path : String) :
    (write w g s data path).2.trace
        = s.trace ++ [logLine ("writing " ++ g.genPath ++ "\n")] ∨
      (write w g s data path).2.trace
        = s.trace ++ [logLine ("writing " ++ g.genPath ++ "\n"), .create path,
            .write path data, .close path] := by
  unfold write
  cases hc : w.osCreate path with
  | some err => left; simp [Sys.emit]
  | none =>
    right
    rcases hw : w.fileWrite path data with ⟨n, e⟩
    cases e <;> simp [Sys.emit]

/-- Every write event of a run of `main` stores, at `genPath`, the output of the formatter
on the text rendered from the `Properties` built by the run. -/
theorem main_write_event (w : World) (path data : String)
    (h : Event.write path data ∈ (main w).sys.trace) :
    ∃ p, (main w).globals.prop = some p ∧ w.formatSource (substituted p) = .ok data ∧
      path = (main w).globals.genPath := by
  cases hpkg : w.env "GOPACKAGE" with
  | none =>
    simp only [main, hpkg, fatal, Sys.emit] at h
    simp [logLine] at h
  | some pkg =>
    have hsys := makeVersion_sys w { basePkg := pkg } w.start
    rcases hres : makeVersion w { basePkg := pkg } w.start with ⟨e, g2, s1⟩
    rw [hres] at hsys
    simp only at hsys
    cases e with
    | some err =>
      rw [main_makeVersion_error w pkg err hpkg (by rw [hres])] at h
      simp [fatal, Sys.emit, World.start, logLine] at h
    | none =>
      have hmain : main w = match verifyPath w g2 s1 with
          | .error out => out
          | .ok g3 =>
            match generate w g3 s1 with
            | ((gen, some err), s2) =>
              fatal g3 s2 ("generate error: " ++ err ++ "\n" ++ gen ++ "\n")
            | ((gen, none), s2) =>
              match write w g3 s2 gen g3.genPath with
              | (some err, s3) => fatal g3 s3 ("write error: " ++ err ++ "\n")
              | (none, s3) => { exitCode := 0, globals := g3, sys := s3 } := by
        simp only [main, hpkg]
        rw [show ({ fs := w.fs, trace := [] } : Sys) = w.start from rfl, hres]
      have hs1 : s1.trace = [.exec "" vcsGit.cmd vcsGit.versionCmd] := by
        rw [hsys]; rfl
      cases hvp : verifyPath w g2 s1 with
      | error o =>
        rw [hmain, hvp] at h
        obtain ⟨-, -, line, hl⟩ := verifyPath_error w g2 s1 o hvp
        simp only at h
        rw [hl, hs1] at h
        simp at h
      | ok g3 =>
        have hgs := generate_sys w g3 s1
        rcases hgen : generate w g3 s1 with ⟨⟨gen, e2⟩, s2⟩
        rw [hgen] at hgs
        simp only at hgs
        have hs2 : s2.trace = [.exec "" vcsGit.cmd vcsGit.versionCmd,
            logLine ("generating " ++ g3.basePkg ++ " version package\n")] := by
          rw [hgs]; simp [Sys.emit, hs1]
        cases e2 with
        | some err =>
          rw [hmain, hvp] at h
          simp only [hgen, fatal, Sys.emit, hs2] at h
          simp [logLine] at h
        | none =>
          have hfmt : ∃ p, g3.prop = some p ∧ w.formatSource (substituted p) = .ok gen := by
            cases hp : g3.prop with
            | none =>
              have := generate_none w g3 s1 hp
              rw [hgen] at this
              simp at this
            | some p =>
              have := generate_some w g3 s1 p hp
              rw [hgen] at this
              cases hf : w.formatSource (substituted p) with
              | error e1 => rw [hf] at this; simp at this
              | ok t =>
                rw [hf] at this
                simp only [Prod.mk.injEq, and_true] at this
                exact ⟨p, rfl, by rw [this]; exact hf⟩
          obtain ⟨p, hp, hf⟩ := hfmt
          have hwt := write_trace w g3 s2 gen g3.genPath
          rcases hwr : write w g3 s2 gen g3.genPath with ⟨e3, s3⟩
          rw [hwr] at hwt
          simp only at hwt
          have hmem : Event.write path data ∈ s3.trace ∨ False := by
            rw [hmain, hvp] at h
            simp only [hgen, hwr] at h
            cases e3 with
            | some err =>
              simp only [fatal, Sys.emit, List.mem_append, List.mem_singleton, logLine] at h
              rcases h with h | h
              · exact Or.inl h
              · simp at h
            | none => exact Or.inl h
          have hglob : (main w).globals = g3 := by
            rw [hmain, hvp]
            simp only [hgen, hwr]
            cases e3 <;> rfl
          rw [hglob]
          rcases hmem with hmem | hf2
          · rcases hwt with hwt | hwt
            · rw [hwt, hs2] at hmem
              simp [logLine] at hmem
            · rw [hwt, hs2] at hmem
              simp [logLine] at hmem
              exact ⟨p, hp, by rw [hmem.2]; exact hf, hmem.1⟩
          · exact absurd hf2 id

/-! ## `verifyPath` -/

/-- The result of `verifyPath` when the caller is known and `GOPATH` is set. -/
theorem verifyPath_ok (w : World) (g : Globals) (s : Sys) (filename goPath : String)
    (hc : w.caller = some filename) (hg : w.env "GOPATH" = some goPath) :
    verifyPath w g s = .ok { g with
      runDir := pathJoin [goPath, "src", g.basePkg]
      genPath := pathJoin [pathDir filename, "../", genFile] } := by
  simp only [verifyPath, hc, hg]

/-- The generated file name holds no slash. -/
theorem genFile_no_slash : ∀ c ∈ genFile.data, c ≠ '/' := by
  decide

/-- Matching a name against the pattern `v`. -/
theorem globMatch_v (l : List Char) :
    globMatch ['v'] l = match l with
      | [] => false
      | x :: t => decide (x = 'v') && t.isEmpty := by
  cases l with
  | nil => rfl
  | cons x t => cases t <;> rfl

/-! ## The literal rendered for `Description` -/

/-- The scanner run over two pieces of text: run it over the first, then over the second
from the state reached. -/
theorem scanRun_append (a b : List Char) :
    ∀ m, scanRun m (a ++ b)
      = ((scanRun m a).1 ++ (scanRun (scanRun m a).2 b).1, (scanRun (scanRun m a).2 b).2) := by
  induction a with
  | nil => intro m; simp [scanRun]
  | cons c t ih =>
    intro m
    have e1 : scanRun m (c :: (t ++ b))
        = ((scanStep m c).1 ++ (scanRun (scanStep m c).2 (t ++ b)).1,
            (scanRun (scanStep m c).2 (t ++ b)).2) := rfl
    have e2 : scanRun m (c :: t)
        = ((scanStep m c).1 ++ (scanRun (scanStep m c).2 t).1,
            (scanRun (scanStep m c).2 t).2) := rfl
    rw [List.cons_append, e1, e2, ih]
    simp only [List.append_assoc]

/-- Inside a string literal, plain characters are taken as they are. -/
theorem scanRun_plain (l : List Char)
    (hl : ∀ c ∈ l, c ≠ quoteChar ∧ c ≠ backslashChar ∧ c ≠ '\n' ∧ c.toNat ≠ 0 ∧
      c.toNat ≠ 0xFEFF) :
    ∀ acc, scanRun (.lit quoteChar acc) l = ([], .lit quoteChar (acc ++ l)) := by
  induction l with
  | nil => intro acc; simp [scanRun]
  | cons c t ih =>
    intro acc
    have hc := hl c (by simp)
    have ht := ih (fun x hx => hl x (by simp [hx])) (acc ++ [c])
    simp only [scanRun, scanStep, hc.1, hc.2.1, hc.2.2.1, hc.2.2.2.1, hc.2.2.2.2, if_false,
      or_self, ht, List.nil_append, List.append_assoc, List.singleton_append]

/-- The closing quote ends the string literal and gives its token. -/
theorem scanRun_close (acc rest : List Char) :
    scanRun (.lit quoteChar acc) (quoteChar :: rest)
      = (.str ⟨acc⟩ :: (scanRun .code rest).1, (scanRun .code rest).2) := by
  simp [scanRun, scanStep, litToken]

/-- The tokens of the template head, which ends inside the literal of `ID`. -/
theorem scanRun_tmplHead :
    scanRun .code tmplHead.data
      = ([.word "package", .word "version", .word "var", .op '(', .word "ID", .op '='],
          .lit quoteChar []) := by
  decide

/-- The text after the value of `ID`: the closing quote, then the tokens up to the literal
of `Description`. -/
theorem scanRun_tmplAfterID :
    tmplAfterID.data = quoteChar :: tmplAfterID.data.tail ∧
    scanRun .code tmplAfterID.data.tail
      = ([.word "Description", .op '='], .lit quoteChar []) := by
  decide

/-- The text after the value of `Description` starts with the closing quote. -/
theorem tmplAfterDescription_data :
    tmplAfterDescription.data = quoteChar :: tmplAfterDescription.data.tail := by
  decide

/-- The tokens of the rendered text when the values of `ID` and `Description` are plain. -/
theorem goTokens_substituted (p : Properties) (hid : LiteralPlain p.ID)
    (hdesc : LiteralPlain p.Description) :
    ∃ more, goTokens (substituted p)
      = [.word "package", .word "version", .word "var", .op '(', .word "ID", .op '=',
          .str p.ID, .word "Description", .op '=', .str p.Description] ++ more := by
  have hdata : (substituted p).data
      = tmplHead.data ++ (p.ID.data ++ (quoteChar :: (tmplAfterID.data.tail ++
          (p.Description.data ++ (quoteChar :: (tmplAfterDescription.data.tail ++
            (p.Hostname ++ (tmplAfterHostname ++ (p.Runtime ++ tmplTail))).data)))))) := by
    have h1 := scanRun_tmplAfterID.1
    have h2 := tmplAfterDescription_data
    simp only [substituted, String.data_append]
    conv_lhs => rw [h1, h2]
    simp only [List.cons_append, List.append_assoc]
  unfold goTokens
  rw [hdata]
  simp only [scanRun_append, scanRun_tmplHead, scanRun_plain _ hid, scanRun_close,
    scanRun_tmplAfterID.2, scanRun_plain _ hdesc, List.nil_append, List.append_assoc,
    List.cons_append]
  exact ⟨_, rfl⟩

/-- The literal assigned to `Description` in a token list that starts like the rendered
text. -/
theorem assignedLiteral_rendered (idv descv : String) (more : List GoToken) :
    assignedLiteral "Description"
        ([.word "package", .word "version", .word "var", .op '(', .word "ID", .op '=',
          .str idv, .word "Description", .op '=', .str descv] ++ more)
      = some descv := by
  simp [assignedLiteral]

/-- The literal of `Description` in the rendered text, for plain values of `ID` and
`Description`. -/
theorem descriptionLiteral_plain (p : Properties) (hid : LiteralPlain p.ID)
    (hdesc : LiteralPlain p.Description) :
    descriptionLiteral (substituted p) = some p.Description := by
  obtain ⟨more, hmore⟩ := goTokens_substituted p hid hdesc
  unfold descriptionLiteral
  rw [hmore, assignedLiteral_rendered]

/-- The literal of `Description` in the text returned by `generate`, for plain values and a
formatter that keeps the tokens. -/
theorem descriptionLiteral_generate (w : World) (g : Globals) (s : Sys) (p : Properties)
    (hp : g.prop = some p) (hid : LiteralPlain p.ID) (hdesc : LiteralPlain p.Description)
    (hfmt : KeepsTokens w.formatSource (substituted p)) :
    descriptionLiteral (generate w g s).1.1 = some p.Description := by
  rw [generate_some w g s p hp]
  cases hf : w.formatSource (substituted p) with
  | error err => exact descriptionLiteral_plain p hid hdesc
  | ok f =>
    have := hfmt f hf
    show descriptionLiteral f = _
    unfold descriptionLiteral
    rw [this]
    exact descriptionLiteral_plain p hid hdesc

/-- The `Properties` at the end of a run of `main` are those left by `makeVersion`. -/
theorem main_prop (w : World) (pkg : String) (hpkg : w.env "GOPACKAGE" = some pkg) :
    (main w).globals.prop = (makeVersion w { basePkg := pkg } w.start).2.1.prop := by
  rcases hres : makeVersion w { basePkg := pkg } w.start with ⟨e, g2, s1⟩
  cases e with
  | some err =>
    have hg := makeVersion_error_globals w _ g2 _ s1 err hres
    rw [main_makeVersion_error w pkg err hpkg (by rw [hres])]
    subst hg
    rfl
  | none =>
    have hmain : main w = match verifyPath w g2 s1 with
        | .error out => out
        | .ok g3 =>
          match generate w g3 s1 with
          | ((gen, some err), s2) =>
            fatal g3 s2 ("generate error: " ++ err ++ "\n" ++ gen ++ "\n")
          | ((gen, none), s2) =>
            match write w g3 s2 gen g3.genPath with
            | (some err, s3) => fatal g3 s3 ("write error: " ++ err ++ "\n")
            | (none, s3) => { exitCode := 0, globals := g3, sys := s3 } := by
      simp only [main, hpkg]
      rw [show ({ fs := w.fs, trace := [] } : Sys) = w.start from rfl, hres]
    rw [hmain]
    show _ = g2.prop
    unfold verifyPath
    cases hc : w.caller with
    | none => rfl
    | some filename =>
      cases hg : w.env "GOPATH" with
      | none => rfl
      | some goPath =>
        simp only
        rcases hgen : generate w _ s1 with ⟨⟨gen, e2⟩, s2⟩
        cases e2 with
        | some err => rfl
        | none =>
          simp only
          rcases hwr : write w _ s2 gen _ with ⟨e3, s3⟩
          cases e3 <;> rfl

/-- Blank lines at the start of a text hold no token. -/
theorem scanRun_dropBlank (l : List Char) :
    scanRun .code (l.dropWhile (fun c => c == '\n')) = scanRun .code l := by
  induction l with
  | nil => rfl
  | cons c t ih =>
    by_cases hc : c = '\n'
    · subst hc
      have e : scanRun .code ('\n' :: t) = scanRun .code t := by
        simp [scanRun, scanStep, stepCode]
      rw [e, ← ih]
      rfl
    · have : (c == '\n') = false := by simpa using hc
      rw [List.dropWhile_cons_of_neg (by simp [this])]

/-- The stand-in formatter keeps the tokens of every text. -/
theorem layoutFormat_keepsTokens (t : String) : KeepsTokens layoutFormat t := by
  intro f hf
  unfold layoutFormat at hf
  split at hf
  · simp at hf
  · simp only [Except.ok.injEq] at hf
    subst hf
    unfold goTokens
    rw [scanRun_dropBlank]

/-! ## The claims -/

/-- C1: after `makeVersion` succeeds, `ID` is `Pipeline <p> (Build <b>)` with the values of
`CI_PIPELINE_ID` and `CI_BUILD_ID` when both are set, it is `DEV` when either is absent, and
it has the pipeline form if and only if both are set. -/
theorem makeVersion_ID (w : World) (g g1 : Globals) (s s1 : Sys)
    (h : makeVersion w g s = (none, g1, s1)) :
    ∃ p, g1.prop = some p ∧
      (∀ a b, w.env "CI_PIPELINE_ID" = some a → w.env "CI_BUILD_ID" = some b →
        p.ID = "Pipeline " ++ a ++ " (Build " ++ b ++ ")") ∧
      (w.env "CI_PIPELINE_ID" = none ∨ w.env "CI_BUILD_ID" = none → p.ID = "DEV") ∧
      ((∃ a b, p.ID = "Pipeline " ++ a ++ " (Build " ++ b ++ ")") ↔
        ((w.env "CI_PIPELINE_ID").isSome ∧ (w.env "CI_BUILD_ID").isSome)) := by
  obtain ⟨out, host, hout, hhost⟩ := makeVersion_success w g g1 s s1 h
  rw [makeVersion_ok w g s out host hout hhost] at h
  have hg : g1 = _ := (congrArg (fun r => r.2.1) h).symm
  subst hg
  refine ⟨_, rfl, ?_, ?_, ?_⟩
  · intro a b ha hb
    simp only [ha, hb]
  · intro hor
    rcases hor with ha | hb
    · simp only [ha]
    · simp only [hb]
      cases w.env "CI_PIPELINE_ID" <;> rfl
  · cases ha : w.env "CI_PIPELINE_ID" with
    | none =>
      simp only [Option.isSome_none, Bool.false_eq_true, false_and, iff_false, not_exists]
      intro a b hab
      exact dev_ne_pipeline a b hab
    | some a =>
      cases hb : w.env "CI_BUILD_ID" with
      | none =>
        simp only [Option.isSome_none, Bool.false_eq_true, and_false, iff_false, not_exists]
        intro a b hab
        exact dev_ne_pipeline a b hab
      | some b =>
        simp only [Option.isSome_some, and_self, iff_true]
        exact ⟨a, b, rfl⟩

/-- C1, at the documented scenarios: pipeline 42 and build 7 give `Pipeline 42 (Build 7)`,
and a run without CI variables gives `DEV`. -/
theorem makeVersion_ID_witness :
    (∃ p, (makeVersion ciWorld {} ciWorld.start).2.1.prop = some p ∧
      p.ID = "Pipeline 42 (Build 7)") ∧
    (∃ p, (makeVersion (devWorld "v1.2.0-3-gabc1234567\n") {}
        (devWorld "v1.2.0-3-gabc1234567\n").start).2.1.prop = some p ∧ p.ID = "DEV") := by
  constructor
  · obtain ⟨p, hp, hboth, -, -⟩ :=
      makeVersion_ID ciWorld {} (makeVersion ciWorld {} ciWorld.start).2.1 ciWorld.start
        (makeVersion ciWorld {} ciWorld.start).2.2 rfl
    exact ⟨p, hp, hboth "42" "7" rfl rfl⟩
  · obtain ⟨p, hp, -, hdev, -⟩ :=
      makeVersion_ID (devWorld "v1.2.0-3-gabc1234567\n") {}
        (makeVersion (devWorld "v1.2.0-3-gabc1234567\n") {}
          (devWorld "v1.2.0-3-gabc1234567\n").start).2.1
        (devWorld "v1.2.0-3-gabc1234567\n").start
        (makeVersion (devWorld "v1.2.0-3-gabc1234567\n") {}
          (devWorld "v1.2.0-3-gabc1234567\n").start).2.2 rfl
    exact ⟨p, hp, hdev (Or.inl rfl)⟩

/-- C2 (amended): when `makeVersion` succeeds on the command output `out`, `Description` is
`out` with leading and trailing white space removed, and `generate` renders the template
with that value put in as it is.  When neither the value of `ID` nor the trimmed output
holds a double quote, a backslash, a line feed, a NUL or a byte order mark, and
`format.Source` keeps the Go tokens of the rendered text, then the string literal assigned
to `Description` denotes exactly the trimmed output, both in the text returned by `generate`
(with or without a formatting error) and in the text that a run of `main` writes. -/
theorem description_is_trimmed_output (w : World) (g g1 : Globals) (s s1 : Sys) (out : String)
    (hout : w.runCmd g.runDir vcsGit.cmd vcsGit.versionCmd = .ok out)
    (hmv : makeVersion w g s = (none, g1, s1)) :
    ∃ p, g1.prop = some p ∧ p.Description = trimSpace out ∧
      (∀ (ga : Globals) (sa : Sys), ga.prop = some p →
        (generate w ga sa).1 = match w.formatSource (substituted p) with
          | .error err => (substituted p, some err)
          | .ok formatted => (formatted, none)) ∧
      (LiteralPlain p.ID → LiteralPlain (trimSpace out) →
        KeepsTokens w.formatSource (substituted p) →
          (∀ (ga : Globals) (sa : Sys), ga.prop = some p →
            descriptionLiteral (generate w ga sa).1.1 = some (trimSpace out)) ∧
          (g.runDir = "" → ∀ (path data : String),
            Event.write path data ∈ (main w).sys.trace →
              descriptionLiteral data = some (trimSpace out))) := by
  obtain ⟨out1, host, hout1, hhost⟩ := makeVersion_success w g g1 s s1 hmv
  rw [hout] at hout1
  have ho : out = out1 := by simpa using hout1
  subst ho
  rw [makeVersion_ok w g s out host hout hhost] at hmv
  have hg : g1 = _ := (congrArg (fun r => r.2.1) hmv).symm
  subst hg
  refine ⟨_, rfl, rfl, ?_, ?_⟩
  · intro ga sa ha
    exact generate_some w ga sa _ ha
  · intro hid hdesc hfmt
    refine ⟨?_, ?_⟩
    · intro ga sa ha
      exact descriptionLiteral_generate w ga sa _ ha hid hdesc hfmt
    · intro hdir path data hmem
      obtain ⟨q, hq, hfq, -⟩ := main_write_event w path data hmem
      cases hpkg : w.env "GOPACKAGE" with
      | none =>
        rw [main_no_package w hpkg] at hq
        simp [fatal] at hq
      | some pkg =>
        rw [main_prop w pkg hpkg,
          makeVersion_ok w { basePkg := pkg } w.start out host (by rw [← hdir]; exact hout)
            hhost] at hq
        simp only [Option.some.injEq] at hq
        subst hq
        have htok := hfmt data hfq
        unfold descriptionLiteral
        rw [htok]
        exact descriptionLiteral_plain _ hid hdesc

/-- The documented scenario: the output `v1.2.0-3-gabc1234567` followed by a line feed gives
the description `v1.2.0-3-gabc1234567`; `generate` succeeds, and the literal assigned to
`Description` in the text it returns, and in the text written by `main`, denotes it. -/
theorem description_is_trimmed_output_witness :
    ∃ p, (makeVersion (devWorld "v1.2.0-3-gabc1234567\n") {}
        (devWorld "v1.2.0-3-gabc1234567\n").start).2.1.prop = some p ∧
      p.Description = "v1.2.0-3-gabc1234567" ∧
      (generate (devWorld "v1.2.0-3-gabc1234567\n") { prop := some p }
        (devWorld "v1.2.0-3-gabc1234567\n").start).1.2 = none ∧
      descriptionLiteral (generate (devWorld "v1.2.0-3-gabc1234567\n") { prop := some p }
        (devWorld "v1.2.0-3-gabc1234567\n").start).1.1 = some "v1.2.0-3-gabc1234567" ∧
      (∀ (path data : String),
        Event.write path data ∈ (main (devWorld "v1.2.0-3-gabc1234567\n")).sys.trace →
          descriptionLiteral data = some "v1.2.0-3-gabc1234567") := by
  obtain ⟨p, h1, h2, h3, h4⟩ := description_is_trimmed_output
    (devWorld "v1.2.0-3-gabc1234567\n") {}
    (makeVersion (devWorld "v1.2.0-3-gabc1234567\n") {}
      (devWorld "v1.2.0-3-gabc1234567\n").start).2.1
    (devWorld "v1.2.0-3-gabc1234567\n").start
    (makeVersion (devWorld "v1.2.0-3-gabc1234567\n") {}
      (devWorld "v1.2.0-3-gabc1234567\n").start).2.2
    "v1.2.0-3-gabc1234567\n" rfl rfl
  have hp : p = ⟨"DEV", "v1.2.0-3-gabc1234567", "buildhost", "go1.9"⟩ := by
    have h0 : (makeVersion (devWorld "v1.2.0-3-gabc1234567\n") {}
        (devWorld "v1.2.0-3-gabc1234567\n").start).2.1.prop
        = some ⟨"DEV", "v1.2.0-3-gabc1234567", "buildhost", "go1.9"⟩ := by decide
    rw [h0] at h1
    exact (Option.some.inj h1).symm
  subst hp
  have ht : trimSpace "v1.2.0-3-gabc1234567\n" = "v1.2.0-3-gabc1234567" := by decide
  rw [ht] at h4
  obtain ⟨h5, h6⟩ := h4 (by unfold LiteralPlain; decide) (by unfold LiteralPlain; decide)
    (layoutFormat_keepsTokens _)
  refine ⟨_, h1, rfl, ?_, h5 _ _ rfl, h6 rfl⟩
  rw [h3 _ _ rfl]
  decide

/-- C2 as stated fails on two inputs.  First, a double quote in the output: for the output
`v"x-0-gabc1234567` followed by a line feed, `Description` is the trimmed output, the
formatter rejects the rendered text, `generate` returns that text with the error, and the
literal assigned to `Description` in it denotes `v`, not the trimmed output; the run of
`main` exits with status 1.  Second, a double quote in `ID`: with
`CI_PIPELINE_ID` set to `7"; Description = "x`, `CI_BUILD_ID` set to `1` and the plain output
`v1.2.0`, `generate` succeeds, the first literal assigned to `Description` in the text it
returns denotes `x (Build 1)`, not the trimmed output, and the run of `main` exits with
status 0. -/
theorem description_literal_cut_at_quote :
    ((makeVersion (devWorld "v\"x-0-gabc1234567\n") {}
        (devWorld "v\"x-0-gabc1234567\n").start).2.1.prop
      = some ⟨"DEV", "v\"x-0-gabc1234567", "buildhost", "go1.9"⟩ ∧
    trimSpace "v\"x-0-gabc1234567\n" = "v\"x-0-gabc1234567" ∧
    (generate (devWorld "v\"x-0-gabc1234567\n")
        { prop := some ⟨"DEV", "v\"x-0-gabc1234567", "buildhost", "go1.9"⟩ }
        (devWorld "v\"x-0-gabc1234567\n").start).1
      = (substituted ⟨"DEV", "v\"x-0-gabc1234567", "buildhost", "go1.9"⟩,
          some "syntax error") ∧
    descriptionLiteral (generate (devWorld "v\"x-0-gabc1234567\n")
        { prop := some ⟨"DEV", "v\"x-0-gabc1234567", "buildhost", "go1.9"⟩ }
        (devWorld "v\"x-0-gabc1234567\n").start).1.1 = some "v" ∧
    descriptionLiteral (generate (devWorld "v\"x-0-gabc1234567\n")
        { prop := some ⟨"DEV", "v\"x-0-gabc1234567", "buildhost", "go1.9"⟩ }
        (devWorld "v\"x-0-gabc1234567\n").start).1.1
      ≠ some (trimSpace "v\"x-0-gabc1234567\n") ∧
    (main (devWorld "v\"x-0-gabc1234567\n")).exitCode = 1) ∧
    ((makeVersion
        { devWorld "v1.2.0\n" with
          env := envOf [("GOPACKAGE", "version"), ("GOPATH", "/go"),
            ("CI_PIPELINE_ID", "7\"; Description = \"x"), ("CI_BUILD_ID", "1")] }
        {} (devWorld "v1.2.0\n").start).2.1.prop
      = some ⟨"Pipeline 7\"; Description = \"x (Build 1)", "v1.2.0", "buildhost", "go1.9"⟩ ∧
    trimSpace "v1.2.0\n" = "v1.2.0" ∧
    (generate
        { devWorld "v1.2.0\n" with
          env := envOf [("GOPACKAGE", "version"), ("GOPATH", "/go"),
            ("CI_PIPELINE_ID", "7\"; Description = \"x"), ("CI_BUILD_ID", "1")] }
        { prop := some
            ⟨"Pipeline 7\"; Description = \"x (Build 1)", "v1.2.0", "buildhost", "go1.9"⟩ }
        (devWorld "v1.2.0\n").start).1.2 = none ∧
    descriptionLiteral (generate
        { devWorld "v1.2.0\n" with
          env := envOf [("GOPACKAGE", "version"), ("GOPATH", "/go"),
            ("CI_PIPELINE_ID", "7\"; Description = \"x"), ("CI_BUILD_ID", "1")] }
        { prop := some
            ⟨"Pipeline 7\"; Description = \"x (Build 1)", "v1.2.0", "buildhost", "go1.9"⟩ }
        (devWorld "v1.2.0\n").start).1.1 = some "x (Build 1)" ∧
    (main
        { devWorld "v1.2.0\n" with
          env := envOf [("GOPACKAGE", "version"), ("GOPATH", "/go"),
            ("CI_PIPELINE_ID", "7\"; Description = \"x"), ("CI_BUILD_ID", "1")] }).exitCode
      = 0) := by
  refine ⟨⟨by decide, by decide, ?_, ?_, ?_, by decide⟩,
    ⟨by decide, by decide, ?_, ?_, by decide⟩⟩
  · rw [generate_some _ _ _ _ rfl]
    rfl
  · rw [generate_some _ _ _ _ rfl]
    decide
  · rw [generate_some _ _ _ _ rfl]
    decide
  · rw [generate_some _ _ _ _ rfl]
    decide
  · rw [generate_some _ _ _ _ rfl]
    decide

/-- C3 fails on the code: with `GOPACKAGE=version` and `GOPATH=/go` the command is executed
with `cmd.Dir` equal to the empty string (the zero value of `runDir`), not with
`path.Join(GOPATH, "src", GOPACKAGE)`, because `main` calls `verifyPath`, which assigns
`runDir`, only after `makeVersion`. -/
theorem describe_runs_before_runDir_is_set :
    (devWorld "v1.2.0\n").env "GOPACKAGE" = some "version" ∧
    (devWorld "v1.2.0\n").env "GOPATH" = some "/go" ∧
    pathJoin ["/go", "src", "version"] = "/go/src/version" ∧
    (main (devWorld "v1.2.0\n")).sys.trace.head?
      = some (.exec "" "git"
          ["describe", "--long", "--dirty", "--abbrev=10", "--tags", "--match=v", "--always"]) ∧
    (main (devWorld "v1.2.0\n")).sys.trace.filter
        (fun e => match e with
          | .exec _ _ _ => true
          | _ => false)
      = [.exec "" "git"
          ["describe", "--long", "--dirty", "--abbrev=10", "--tags", "--match=v", "--always"]] ∧
    (main (devWorld "v1.2.0\n")).globals.runDir = "/go/src/version" ∧
    (main (devWorld "v1.2.0\n")).exitCode = 0 := by
  refine ⟨rfl, rfl, by decide, by decide, by decide, by decide, by decide⟩

/-- C4: when formatting the rendered text fails, `generate` returns the error together with
the unformatted rendered text (the template with the values of the `Properties` put in
place); and an error of `generate` that comes with a non-empty text is a formatting failure,
since the other error paths return the empty string. -/
theorem generate_format_failure (w : World) (g : Globals) (s : Sys) (p : Properties)
    (err : String) (hp : g.prop = some p)
    (hf : w.formatSource (substituted p) = .error err) :
    (generate w g s).1 = (substituted p, some err) ∧ substituted p ≠ "" ∧
      (∀ (w1 : World) (g1 : Globals) (s1 : Sys) (t e : String),
        (generate w1 g1 s1).1 = (t, some e) → t ≠ "" →
          ∃ q, g1.prop = some q ∧ w1.formatSource (substituted q) = .error e ∧
            t = substituted q) ∧
      (∀ (w1 : World) (g1 : Globals) (s1 : Sys), g1.prop = none →
        ∃ e, (generate w1 g1 s1).1 = ("", some e)) := by
  refine ⟨?_, substituted_ne_empty p, ?_, ?_⟩
  · rw [generate_some w g s p hp, hf]
  · intro w1 g1 s1 t e hgen hne
    cases hq : g1.prop with
    | none =>
      rw [generate_none w1 g1 s1 hq] at hgen
      exact absurd (congrArg Prod.fst hgen).symm hne
    | some q =>
      rw [generate_some w1 g1 s1 q hq] at hgen
      cases hfq : w1.formatSource (substituted q) with
      | error e1 =>
        rw [hfq] at hgen
        simp only [Prod.mk.injEq, Option.some.injEq] at hgen
        exact ⟨q, rfl, by rw [hfq, hgen.2], hgen.1.symm⟩
      | ok t1 =>
        rw [hfq] at hgen
        simp at hgen
  · intro w1 g1 s1 hnone
    exact ⟨_, generate_none w1 g1 s1 hnone⟩

/-- A run whose formatter rejects every text. -/
theorem generate_format_failure_witness :
    (generate { devWorld "v1.2.0\n" with formatSource := fun _ => .error "1:1: expected x" }
        { prop := some ⟨"DEV", "v1.2.0", "buildhost", "go1.9"⟩ }
        { fs := fun _ => none, trace := [] }).1
      = (substituted ⟨"DEV", "v1.2.0", "buildhost", "go1.9"⟩, some "1:1: expected x") :=
  (generate_format_failure
    { devWorld "v1.2.0\n" with formatSource := fun _ => .error "1:1: expected x" }
    { prop := some ⟨"DEV", "v1.2.0", "buildhost", "go1.9"⟩ }
    { fs := fun _ => none, trace := [] }
    ⟨"DEV", "v1.2.0", "buildhost", "go1.9"⟩ "1:1: expected x" rfl rfl).1

/-- C5: when `GOPACKAGE` is unset, `main` exits with status 1 after printing the fatal line
and nothing else: no command is run, `generate` and `write` are not reached, no package
variable is assigned and the files are unchanged. -/
theorem main_without_GOPACKAGE (w : World) (h : w.env "GOPACKAGE" = none) :
    (main w).exitCode = 1 ∧
      (main w).sys.trace = [logLine "$GOPACKAGE is not set in the os env\n"] ∧
      (main w).sys.fs = w.fs ∧
      (main w).globals = {} := by
  simp only [main, h, fatal, Sys.emit]
  simp

/-- A run with an empty environment. -/
theorem main_without_GOPACKAGE_witness :
    (main { devWorld "v1.2.0\n" with env := envOf [] }).exitCode = 1 ∧
      (main { devWorld "v1.2.0\n" with env := envOf [] }).sys.trace
        = [logLine "$GOPACKAGE is not set in the os env\n"] ∧
      (main { devWorld "v1.2.0\n" with env := envOf [] }).sys.fs = fun _ => none :=
  have h := main_without_GOPACKAGE { devWorld "v1.2.0\n" with env := envOf [] } rfl
  ⟨h.1, h.2.1, h.2.2.1⟩

/-- C6: when the version-control command fails, or when it succeeds and the hostname lookup
fails, `makeVersion` returns that error and leaves `prop` (and the other package variables)
unassigned, and `main` exits with status 1: no file is created or written, the files are
unchanged, and the trace of a run that reached `makeVersion` holds the command and the fatal
line only. -/
theorem describe_failure_is_fatal (w : World) (err : String)
    (hfail : w.runCmd "" vcsGit.cmd vcsGit.versionCmd = .error err ∨
      ∃ out, w.runCmd "" vcsGit.cmd vcsGit.versionCmd = .ok out ∧ w.hostname = .error err) :
    (∀ (g : Globals) (s : Sys), g.runDir = "" →
      makeVersion w g s = (some err, g, s.emit (.exec "" vcsGit.cmd vcsGit.versionCmd))) ∧
    (main w).exitCode = 1 ∧
    (main w).globals.prop = none ∧
    (main w).sys.fs = w.fs ∧
    (∀ (path data : String), Event.create path ∉ (main w).sys.trace ∧
      Event.write path data ∉ (main w).sys.trace) ∧
    (∀ pkg, w.env "GOPACKAGE" = some pkg →
      (main w).sys.trace
        = [.exec "" vcsGit.cmd vcsGit.versionCmd,
            logLine ("issue determine version:\n" ++ err ++ "\n")]) := by
  have hmk : ∀ (g : Globals) (s : Sys), g.runDir = "" →
      makeVersion w g s = (some err, g, s.emit (.exec "" vcsGit.cmd vcsGit.versionCmd)) := by
    intro g s hdir
    rcases hfail with hc | ⟨out, hc, hh⟩
    · have := makeVersion_cmd_error w g s err (by rw [hdir]; exact hc)
      rw [this, hdir]
    · have := makeVersion_host_error w g s out err (by rw [hdir]; exact hc) hh
      rw [this, hdir]
  refine ⟨hmk, ?_⟩
  cases hpkg : w.env "GOPACKAGE" with
  | none =>
    rw [main_no_package w hpkg]
    refine ⟨rfl, rfl, rfl, ?_, ?_⟩
    · intro path data
      simp [fatal, Sys.emit, World.start, logLine]
    · intro pkg h
      simp at h
  | some pkg =>
    have hm := main_makeVersion_error w pkg err hpkg (by rw [hmk _ _ rfl])
    rw [hm]
    refine ⟨rfl, rfl, rfl, ?_, ?_⟩
    · intro path data
      simp [fatal, Sys.emit, World.start, logLine]
    · intro pkg1 _
      rfl

/-- A run whose command fails, and a run whose hostname lookup fails. -/
theorem describe_failure_is_fatal_witness :
    (main { devWorld "" with runCmd := fun _ _ _ => .error "exit status 128" }).exitCode = 1 ∧
    (main { devWorld "" with runCmd := fun _ _ _ => .error "exit status 128" }).sys.trace
      = [.exec "" "git" ["describe", "--long", "--dirty", "--abbrev=10", "--tags", "--match=v",
            "--always"],
          .log "VERSION::issue determine version:\nexit status 128\n"] ∧
    (main { devWorld "v1.2.0\n" with hostname := .error "no hostname" }).exitCode = 1 ∧
    (main { devWorld "v1.2.0\n" with hostname := .error "no hostname" }).globals.prop = none :=
  have h1 := describe_failure_is_fatal
    { devWorld "" with runCmd := fun _ _ _ => .error "exit status 128" }
    "exit status 128" (Or.inl rfl)
  have h2 := describe_failure_is_fatal
    { devWorld "v1.2.0\n" with hostname := .error "no hostname" }
    "no hostname" (Or.inr ⟨"v1.2.0\n", rfl, rfl⟩)
  ⟨h1.2.1, h1.2.2.2.2.2 "version" rfl, h2.2.1, h2.2.2.1⟩

/-- C7 (amended): when `GOPATH` is set (whatever its value) and the generator source file is
`D/gen/gen.go` for a clean absolute directory `D`, `verifyPath` returns and sets `genPath`
to `D/version_gen.go`, whose directory is `D`, one level above the directory `D/gen` of the
source file; the value does not depend on `GOPATH` nor on `basePkg`. -/
theorem verifyPath_genPath (w : World) (g : Globals) (s : Sys) (D goPath : String)
    (hD : IsCleanAbs D) (hc : w.caller = some (childPath D "gen/gen.go"))
    (hg : w.env "GOPATH" = some goPath) :
    ∃ g1, verifyPath w g s = .ok g1 ∧ g1.genPath = childPath D "version_gen.go" ∧
      pathDir g1.genPath = D ∧ pathDir (pathDir (childPath D "gen/gen.go")) = D := by
  rw [verifyPath_ok w g s _ goPath hc hg]
  refine ⟨_, rfl, ?_⟩
  by_cases hroot : D = "/"
  · subst hroot
    simp only [childPath, if_true]
    refine ⟨by decide, by decide, by decide⟩
  · simp only [childPath, hroot, if_false]
    have h1 : pathDir (D ++ "/" ++ "gen/gen.go") = D ++ "/gen" := pathDir_gen D hD hroot
    have h2 : pathJoin [D ++ "/gen", "../", genFile] = D ++ "/" ++ genFile :=
      pathJoin_gen_up D hD hroot
    have h3 : pathDir (D ++ "/" ++ genFile) = D := pathDir_child D genFile hD genFile_no_slash
    have h4 : pathDir (D ++ "/" ++ "gen") = D :=
      pathDir_child D "gen" hD (by decide)
    have h5 : D ++ "/gen" = D ++ "/" ++ "gen" := by
      apply String.ext; simp
    rw [h1, h2]
    refine ⟨rfl, h3, ?_⟩
    rw [h5, h4]

/-- The documented layout: the generator at `/go/src/version/gen/gen.go` writes
`/go/src/version/version_gen.go`. -/
theorem verifyPath_genPath_witness :
    ∃ g1, verifyPath (devWorld "v1.2.0\n") { basePkg := "version" }
        (devWorld "v1.2.0\n").start = .ok g1 ∧
      g1.genPath = "/go/src/version/version_gen.go" ∧
      pathDir g1.genPath = "/go/src/version" := by
  obtain ⟨g1, h1, h2, h3, -⟩ := verifyPath_genPath (devWorld "v1.2.0\n") { basePkg := "version" }
    (devWorld "v1.2.0\n").start "/go/src/version" "/go" ⟨rfl, by decide⟩ rfl rfl
  exact ⟨g1, h1, h2, h3⟩

/-- C7 as stated fails when `GOPATH` is unset: for the source file
`/go/src/version/gen/gen.go`, `verifyPath` exits with the fatal line and assigns nothing, and
the run of `main` ends with status 1 and an empty `genPath`. -/
theorem verifyPath_without_GOPATH :
    IsCleanAbs "/go/src/version" ∧
    ({ devWorld "v1.2.0\n" with env := envOf [("GOPACKAGE", "version")] } : World).caller
      = some (childPath "/go/src/version" "gen/gen.go") ∧
    verifyPath { devWorld "v1.2.0\n" with env := envOf [("GOPACKAGE", "version")] }
        { basePkg := "version" } (devWorld "v1.2.0\n").start
      = .error (fatal { basePkg := "version" } (devWorld "v1.2.0\n").start
          "$GOPATH is not set in the os env\n") ∧
    (main { devWorld "v1.2.0\n" with env := envOf [("GOPACKAGE", "version")] }).exitCode = 1 ∧
    (main { devWorld "v1.2.0\n" with env := envOf [("GOPACKAGE", "version")] }).globals.genPath
      = "" :=
  ⟨⟨rfl, by decide⟩, rfl, rfl, rfl, rfl⟩

/-- C8 fails on the code: the only pattern passed to `--match` is `v`, which has no wildcard
and so accepts the tag `v` only; the tag `v1.2.0`, which starts with `v`, is not accepted.
The other flags are as described. -/
theorem match_pattern_accepts_only_v :
    matchPatterns vcsGit.versionCmd = ["v"] ∧
    "v".data.isPrefixOf "v1.2.0".data = true ∧
    tagAccepted "v1.2.0" = false ∧
    tagAccepted "v" = true ∧
    (∀ name : String, tagAccepted name = true ↔ name = "v") ∧
    "--long" ∈ vcsGit.versionCmd ∧ "--dirty" ∈ vcsGit.versionCmd ∧
    "--abbrev=10" ∈ vcsGit.versionCmd ∧ "--always" ∈ vcsGit.versionCmd := by
  have hpat : matchPatterns vcsGit.versionCmd = ["v"] := by decide
  refine ⟨hpat, by decide, by decide, by decide, ?_, by decide, by decide, by decide,
    by decide⟩
  intro name
  have hacc : tagAccepted name = globMatch ['v'] name.data := by
    simp only [tagAccepted, hpat]
    simp
  rw [hacc, globMatch_v]
  constructor
  · intro h
    apply String.ext
    match hn : name.data, h with
    | x :: t, h =>
      simp only [Bool.and_eq_true, decide_eq_true_eq, List.isEmpty_iff] at h
      rw [h.1, h.2]
  · intro h
    subst h
    decide

/-- C9: when `generate` returns a nil error, the returned text is the output of
`format.Source` on the rendered template (never the unformatted text); and whatever a run of
`main` hands to `f.Write` is that formatter output, written at `genPath`. -/
theorem generate_success_is_formatted (w : World) (g : Globals) (s : Sys) (t : String)
    (h : (generate w g s).1 = (t, none)) :
    (∃ p, g.prop = some p ∧ w.formatSource (substituted p) = .ok t) ∧
    (∀ (w1 : World) (path data : String), Event.write path data ∈ (main w1).sys.trace →
      ∃ p, (main w1).globals.prop = some p ∧ w1.formatSource (substituted p) = .ok data ∧
        path = (main w1).globals.genPath) := by
  refine ⟨?_, main_write_event⟩
  cases hp : g.prop with
  | none =>
    rw [generate_none w g s hp] at h
    simp at h
  | some p =>
    rw [generate_some w g s p hp] at h
    cases hf : w.formatSource (substituted p) with
    | error e => rw [hf] at h; simp at h
    | ok t1 =>
      rw [hf] at h
      simp only [Prod.mk.injEq, and_true] at h
      exact ⟨p, rfl, by rw [hf, h]⟩

/-- A run whose formatter succeeds: the text returned by `generate` is the formatter output. -/
theorem generate_success_is_formatted_witness :
    (generate { devWorld "v1.2.0\n" with formatSource := fun _ => .ok "package version\n" }
        { prop := some ⟨"DEV", "v1.2.0", "buildhost", "go1.9"⟩ }
        { fs := fun _ => none, trace := [] }).1 = ("package version\n", none) ∧
    ∃ p, ({ prop := some ⟨"DEV", "v1.2.0", "buildhost", "go1.9"⟩ } : Globals).prop = some p ∧
      ({ devWorld "v1.2.0\n" with
          formatSource := fun _ => .ok "package version\n" } : World).formatSource
        (substituted p) = .ok "package version\n" :=
  ⟨rfl, (generate_success_is_formatted
    { devWorld "v1.2.0\n" with formatSource := fun _ => .ok "package version\n" }
    { prop := some ⟨"DEV", "v1.2.0", "buildhost", "go1.9"⟩ }
    { fs := fun _ => none, trace := [] } "package version\n" rfl).1⟩

/-- C10: two runs with the same command output, hostname, runtime version and CI variables
(and the same formatter) build equal `Properties`, and `generate` returns the same text and
error for them, whatever the other environment variables (`GOPATH`, `GOPACKAGE`), the other
package variables, the files and the earlier events are. -/
theorem generation_deterministic (w1 w2 : World) (g1 g2 : Globals) (s1 s2 : Sys)
    (out host : String)
    (hc1 : w1.runCmd g1.runDir vcsGit.cmd vcsGit.versionCmd = .ok out)
    (hc2 : w2.runCmd g2.runDir vcsGit.cmd vcsGit.versionCmd = .ok out)
    (hh1 : w1.hostname = .ok host) (hh2 : w2.hostname = .ok host)
    (hv : w1.goVersion = w2.goVersion)
    (hpid : w1.env "CI_PIPELINE_ID" = w2.env "CI_PIPELINE_ID")
    (hbid : w1.env "CI_BUILD_ID" = w2.env "CI_BUILD_ID")
    (hfmt : w1.formatSource = w2.formatSource) :
    (makeVersion w1 g1 s1).1 = none ∧ (makeVersion w2 g2 s2).1 = none ∧
    (∃ p, (makeVersion w1 g1 s1).2.1.prop = some p ∧ (makeVersion w2 g2 s2).2.1.prop = some p ∧
      ∀ (ga gb : Globals) (sa sb : Sys), ga.prop = some p → gb.prop = some p →
        (generate w1 ga sa).1 = (generate w2 gb sb).1) := by
  rw [makeVersion_ok w1 g1 s1 out host hc1 hh1, makeVersion_ok w2 g2 s2 out host hc2 hh2]
  refine ⟨rfl, rfl, _, rfl, ?_, ?_⟩
  · rw [hpid, hbid, hv]
  · intro ga gb sa sb ha hb
    rw [generate_some w1 ga sa _ ha, generate_some w2 gb sb _ hb, hfmt]

/-- Two runs that differ in `GOPATH`, `GOPACKAGE`, the package variables and the files. -/
theorem generation_deterministic_witness :
    (makeVersion (devWorld "v1.2.0\n") {} (devWorld "v1.2.0\n").start).2.1.prop
      = (makeVersion
          { devWorld "v1.2.0\n" with
            env := envOf [("GOPACKAGE", "other"), ("GOPATH", "/elsewhere")]
            fs := fun _ => some "old contents" }
          { basePkg := "other", genPath := "/tmp/version_gen.go" }
          { fs := fun _ => some "old contents", trace := [.log "earlier"] }).2.1.prop := by
  obtain ⟨p, h1, h2, -⟩ := (generation_deterministic (devWorld "v1.2.0\n")
    { devWorld "v1.2.0\n" with
      env := envOf [("GOPACKAGE", "other"), ("GOPATH", "/elsewhere")]
      fs := fun _ => some "old contents" }
    {} { basePkg := "other", genPath := "/tmp/version_gen.go" }
    (devWorld "v1.2.0\n").start
    { fs := fun _ => some "old contents", trace := [.log "earlier"] }
    "v1.2.0\n" "buildhost" rfl rfl rfl rfl rfl rfl rfl rfl).2.2
  rw [h1, h2]

end VersionGen
